import Mathlib

/-
Verification development for the tq repository (github.com/ssccio/tq):
a shallow embedding, in Lean 4, of the TOON codec (pkg/toon/toon.go) and of
the query engine (pkg/query/query.go), together with theorems settling the
specification claims about them.

Modeling conventions, used throughout:
- Go `interface{}` data values (null, bool, float64, int/int64, string,
  []interface{}, map[string]interface{}) are the inductive type `Value`.
- Go `float64` is modeled as an exact rational number `Q` (normalized
  numerator/denominator pair).  NaN, infinities, hexadecimal floats and
  binary rounding are outside the modeled domain; every concrete number in
  this development is exactly representable.
- Go `map[string]interface{}` is modeled as an association list kept in
  strictly ascending key order (the canonical form); insertion is
  `goMapSet`.  Go map iteration order is unspecified, but every place the
  source iterates a map it first sorts the keys, which on the canonical
  form is the identity.  Go's `==`-insensitive map equality coincides with
  list equality on canonical forms.
- Go strings are Lean `String`s; all operations on them (TrimSpace, Split,
  Contains, Index, ...) are re-implemented over `List Char` so that they
  reduce inside the Lean kernel.  Go indexes strings by byte; all string
  surgery done by the source happens at ASCII boundaries, where byte and
  char indices agree.
- Possibly non-terminating Go recursion (the query engine calls itself on
  substrings that may fail to shrink) is modeled with an explicit `fuel`
  argument standing for the Go call stack: fuel exhaustion models the
  stack overflow the Go program would hit.
-/

namespace TQ

/-- Characters treated as white space by Go's unicode.IsSpace (Latin-1 range). -/
def goIsSpace (c : Char) : Bool :=
  c = ' ' || c = '\t' || c = '\n' || c = '\x0b' || c = '\x0c' || c = '\r' ||
  c = '\x85' || c = '\xa0'

/-- Model of Go strings.TrimSpace. -/
def goTrim (s : String) : String :=
  ⟨((s.data.dropWhile goIsSpace).reverse.dropWhile goIsSpace).reverse⟩

/-- Is `p` a substring of `l` (model of Go strings.Contains on char lists). -/
def containsSub (l p : List Char) : Bool :=
  p.isPrefixOf l ||
    match l with
    | [] => false
    | _ :: t => containsSub t p

/-- Model of Go strings.Contains. -/
def strContains (s pat : String) : Bool :=
  containsSub s.data pat.data

/-- Index of the first occurrence of `p` in `l`; `none` models Go's -1. -/
def indexSub (l p : List Char) : Option Nat :=
  if p.isPrefixOf l then some 0
  else
    match l with
    | [] => none
    | _ :: t => (indexSub t p).map (· + 1)

/-- Index of the last occurrence of `p` in `l`; `none` models Go's -1. -/
def lastIndexSub (l p : List Char) : Option Nat :=
  match l with
  | [] => if p.isEmpty then some 0 else none
  | _ :: t =>
    match lastIndexSub t p with
    | some i => some (i + 1)
    | none => if p.isPrefixOf l then some 0 else none

/-- Split `l` at the first occurrence of `p` (the model of strings.SplitN
with n = 2); `none` when `p` does not occur. -/
def splitFirst (l p : List Char) : Option (List Char × List Char) :=
  if p.isPrefixOf l then some ([], l.drop p.length)
  else
    match l with
    | [] => none
    | c :: t => (splitFirst t p).map (fun ab => (c :: ab.1, ab.2))

/-- Worker for `goSplit`; the fuel only guards the (unused) empty-separator
case and is always sufficient. -/
def splitAllAux (fuel : Nat) (l p : List Char) : List (List Char) :=
  match fuel with
  | 0 => [l]
  | f + 1 =>
    match splitFirst l p with
    | none => [l]
    | some (a, b) => a :: splitAllAux f b p

/-- Model of Go strings.Split. -/
def goSplit (s sep : String) : List String :=
  if sep.data.isEmpty then s.data.map (fun c => ⟨[c]⟩)
  else (splitAllAux (s.data.length + 1) s.data sep.data).map (⟨·⟩)

/-- Worker for `goReplaceAll`; fuel is always sufficient for nonempty `p`. -/
def replaceAllAux (fuel : Nat) (l p r : List Char) : List Char :=
  match fuel with
  | 0 => l
  | f + 1 =>
    match splitFirst l p with
    | none => l
    | some (a, b) => a ++ r ++ replaceAllAux f b p r

/-- Model of Go strings.ReplaceAll. -/
def goReplaceAll (s p r : String) : String :=
  ⟨replaceAllAux (s.data.length + 1) s.data p.data r.data⟩

/-- Model of Go strings.Trim: removes any characters of `cut` from both ends. -/
def goTrimChars (s : String) (cut : List Char) : String :=
  ⟨((s.data.dropWhile (cut.contains ·)).reverse.dropWhile (cut.contains ·)).reverse⟩

/-- Model of Go strings.HasPrefix. -/
def goHasPre (s pre : String) : Bool :=
  pre.data.isPrefixOf s.data

/-- Model of Go strings.HasSuffix. -/
def goHasSuf (s suf : String) : Bool :=
  suf.data.reverse.isPrefixOf s.data.reverse

/-- Model of Go strings.TrimPrefix. -/
def goDropPre (s pre : String) : String :=
  if goHasPre s pre then ⟨s.data.drop pre.data.length⟩ else s

/-- Model of Go strings.TrimSuffix. -/
def goDropSuf (s suf : String) : String :=
  if goHasSuf s suf then ⟨s.data.take (s.data.length - suf.data.length)⟩ else s

/-- Model of the Go slice expression s[a:b] on the chars of a string. -/
def goSlice (cs : List Char) (a b : Nat) : List Char :=
  (cs.take b).drop a

/-- Decimal digit to character. -/
def digitChar (n : Nat) : Char :=
  Char.ofNat (48 + n)

/-- Worker producing base-10 digits, most significant first; the fuel
`n + 1` is always sufficient since the argument shrinks by division. -/
def natDigitsAux : Nat → Nat → List Char
  | 0, _ => []
  | f + 1, n => if n < 10 then [digitChar n] else natDigitsAux f (n / 10) ++ [digitChar (n % 10)]

/-- Decimal rendering of a natural number (model of Go %d / strconv). -/
def natStr (n : Nat) : String :=
  ⟨natDigitsAux (n + 1) n⟩

/-- Decimal rendering of an integer (model of Go %d / %v on int64). -/
def intStr (i : Int) : String :=
  if i < 0 then "-" ++ natStr i.natAbs else natStr i.natAbs

/-- Numeric value of a decimal digit character. -/
def digitVal (c : Char) : Nat :=
  c.toNat - 48

/-- Are all characters decimal digits. -/
def allDigits (cs : List Char) : Bool :=
  cs.all (fun c => 48 ≤ c.toNat && c.toNat ≤ 57)

/-- Value of a big-endian digit string. -/
def parseNatDigits (cs : List Char) : Nat :=
  cs.foldl (fun a c => a * 10 + digitVal c) 0

/-- Model of Go strconv.Atoi: optional sign followed by decimal digits.
Overflow of int64 is outside the modeled domain. -/
def parseIntChars? (cs : List Char) : Option Int :=
  match cs with
  | '+' :: r => if r ≠ [] && allDigits r then some (parseNatDigits r : Nat) else none
  | '-' :: r => if r ≠ [] && allDigits r then some (-(parseNatDigits r : Nat) : Int) else none
  | r => if r ≠ [] && allDigits r then some (parseNatDigits r : Nat) else none

/-- Model of Go strconv.Atoi on strings. -/
def goAtoi? (s : String) : Option Int :=
  parseIntChars? s.data

/-- Fuel-driven Euclid; the fuel `a + 1` always suffices because the first
argument strictly decreases. -/
def gcdF : Nat → Nat → Nat → Nat
  | 0, a, b => a + b
  | f + 1, a, b => if a = 0 then b else gcdF f (b % a) a

/-- Greatest common divisor (kernel-reducible). -/
def natGcd (a b : Nat) : Nat :=
  gcdF (a + 1) a b

/-- Exact rational number modeling Go float64 values: numerator and positive
denominator in lowest terms (normalized by the smart constructor `mkQ`). -/
structure Q where
  num : Int
  den : Nat
deriving DecidableEq, Repr

/-- Smart constructor normalizing a fraction; `d` must be positive at every
call site (and is, throughout this development). -/
def mkQ (n : Int) (d : Nat) : Q :=
  let g := natGcd n.natAbs d
  if g = 0 then ⟨0, 1⟩ else ⟨n / (g : Int), d / g⟩

/-- Embed an integer as a rational. -/
def qInt (n : Int) : Q :=
  ⟨n, 1⟩

/-- Rational multiplication. -/
def qMul (a b : Q) : Q :=
  mkQ (a.num * b.num) (a.den * b.den)

/-- Rational addition. -/
def qAdd (a b : Q) : Q :=
  mkQ (a.num * (b.den : Int) + b.num * (a.den : Int)) (a.den * b.den)

/-- Rational negation. -/
def qNeg (a : Q) : Q :=
  ⟨-a.num, a.den⟩

/-- Rational strict order. -/
def qLt (a b : Q) : Bool :=
  a.num * (b.den : Int) < b.num * (a.den : Int)

/-- Rational non-strict order. -/
def qLe (a b : Q) : Bool :=
  a.num * (b.den : Int) ≤ b.num * (a.den : Int)

/-- Is the rational an integer. -/
def qIsInt (a : Q) : Bool :=
  a.den = 1

/-- Scale a rational by a power of ten (used by float parsing). -/
def qScale10 (a : Q) (e : Int) : Q :=
  if 0 ≤ e then mkQ (a.num * ((10 : Nat) ^ e.toNat : Nat)) a.den
  else mkQ a.num (a.den * (10 : Nat) ^ (-e).toNat)

/-- Floor of a rational (model of Go math.Floor on exact values). -/
def qFloor (a : Q) : Int :=
  Int.fdiv a.num (a.den : Int)

/-- Ceiling of a rational (model of Go math.Ceil on exact values). -/
def qCeil (a : Q) : Int :=
  -Int.fdiv (-a.num) (a.den : Int)

/-- Split a mantissa-exponent form at the first 'e' or 'E'. -/
def splitExp (cs : List Char) : List Char × Option (List Char) :=
  match splitFirst cs ['e'] with
  | some (a, b) => (a, some b)
  | none =>
    match splitFirst cs ['E'] with
    | some (a, b) => (a, some b)
    | none => (cs, none)

/-- Parse an unsigned decimal mantissa (digits with at most one dot). -/
def parseMantissa? (cs : List Char) : Option Q :=
  match splitFirst cs ['.'] with
  | none => if cs ≠ [] && allDigits cs then some (qInt (parseNatDigits cs : Nat)) else none
  | some (a, b) =>
    if (a ++ b) ≠ [] && allDigits (a ++ b) then
      some (qScale10 (qInt (parseNatDigits (a ++ b) : Nat)) (-(b.length : Int)))
    else none

/-- Parse an unsigned float body: mantissa with optional exponent. -/
def parseFloatBody? (cs : List Char) : Option Q :=
  let me := splitExp cs
  match parseMantissa? me.1 with
  | none => none
  | some q =>
    match me.2 with
    | none => some q
    | some ecs =>
      match parseIntChars? ecs with
      | none => none
      | some e => some (qScale10 q e)

/-- Model of Go strconv.ParseFloat (64-bit) restricted to finite decimal
syntax with optional sign and exponent.  Binary rounding, "Inf"/"NaN",
hexadecimal floats and digit-group underscores are outside the modeled
domain; every number appearing in this development is exact. -/
def parseFloatChars? (cs : List Char) : Option Q :=
  match cs with
  | [] => none
  | c :: r =>
    if c = '+' then parseFloatBody? r
    else if c = '-' then (parseFloatBody? r).map qNeg
    else parseFloatBody? (c :: r)

/-- Model of Go strconv.ParseFloat on strings. -/
def goParseFloat? (s : String) : Option Q :=
  parseFloatChars? s.data

/-- Byte-order comparison of Go strings; UTF-8 byte order agrees with code
point order, so char-list lexicographic order models it exactly. -/
def charListLt : List Char → List Char → Bool
  | [], [] => false
  | [], _ :: _ => true
  | _ :: _, [] => false
  | a :: as, b :: bs =>
    if a.toNat < b.toNat then true
    else if b.toNat < a.toNat then false
    else charListLt as bs

/-- Model of Go string comparison s < t. -/
def strLt (a b : String) : Bool :=
  charListLt a.data b.data

/-- Model of Go strings.Join. -/
def joinStr (sep : String) : List String → String
  | [] => ""
  | [x] => x
  | x :: xs => x ++ sep ++ joinStr sep xs

/-- Insertion step for `sortLe`. -/
def insertLe (le : α → α → Bool) (x : α) : List α → List α
  | [] => [x]
  | y :: ys => if le x y then x :: y :: ys else y :: insertLe le x ys

/-- Insertion sort by a boolean total preorder; models Go's sort package
(sort.Slice is not stable, but no operation in the source distinguishes
the order of elements its comparator ties). -/
def sortLe (le : α → α → Bool) : List α → List α
  | [] => []
  | x :: xs => insertLe le x (sortLe le xs)

/-- Model of Go sort.Strings (ascending byte order). -/
def sortStrings (xs : List String) : List String :=
  sortLe (fun a b => !strLt b a) xs

/-- Value: the universe of Go interface{} data handled by tq.  Go produces
`float64` for JSON/query numbers and `int64` for integral TOON numbers;
both representations are kept, as the distinction is observable. -/
inductive Value where
  | null
  | bool (b : Bool)
  | int (n : Int)
  | float (q : Q)
  | str (s : String)
  | arr (elems : List Value)
  | obj (fields : List (String × Value))

/-- Model of Go map indexing m[k]. -/
def goMapGet (m : List (String × Value)) (k : String) : Option Value :=
  match m with
  | [] => none
  | (k', v) :: rest => if k = k' then some v else goMapGet rest k

/-- Model of Go map assignment m[k] = v, keeping the canonical strictly
ascending key order that stands for Go's unordered map. -/
def goMapSet (m : List (String × Value)) (k : String) (v : Value) : List (String × Value) :=
  match m with
  | [] => [(k, v)]
  | (k', v') :: rest =>
    if k = k' then (k, v) :: rest
    else if strLt k k' then (k, v) :: (k', v') :: rest
    else (k', v') :: goMapSet rest k v

/-- Model of Go %T, the runtime type name used in error messages. -/
def goTypeName : Value → String
  | .null => "<nil>"
  | .bool _ => "bool"
  | .int _ => "int64"
  | .float _ => "float64"
  | .str _ => "string"
  | .arr _ => "[]interface \x7b\x7d"
  | .obj _ => "map[string]interface \x7b\x7d"

/-- Number of fractional decimal digits needed to print `a` exactly, when
at most 40 suffice (it always does for values with a finite decimal form). -/
def fracDigits (a : Q) : Option Nat :=
  (List.range 41).find? (fun k => qIsInt (qScale10 a (k : Int)))

/-- Model of Go %v / shortest %g formatting of float64 for values with a
finite decimal expansion: integral values print with no decimal point
(as Go does), others print all their fractional digits.  Values needing
scientific notation in Go are outside the domain exercised here. -/
def goFormatFloat (a : Q) : String :=
  if qIsInt a then intStr a.num
  else
    match fracDigits a with
    | none => intStr a.num ++ "/" ++ natStr a.den
    | some k =>
      let n := (qScale10 a (k : Int)).num
      let sign : String := if n < 0 then "-" else ""
      let ds := natDigitsAux (n.natAbs + 1) n.natAbs
      let ds := if ds.length ≤ k then List.replicate (k + 1 - ds.length) '0' ++ ds else ds
      sign ++ ⟨ds.take (ds.length - k)⟩ ++ "." ++ ⟨ds.drop (ds.length - k)⟩

/-- Worker for `goSprintV`; the fuel (any bound on the nesting depth)
never runs out when called through `goSprintV`. -/
def sprintVFuel : Nat → Value → String
  | 0, _ => ""
  | f + 1, v =>
    match v with
    | .null => "<nil>"
    | .bool b => if b then "true" else "false"
    | .int n => intStr n
    | .float q => goFormatFloat q
    | .str s => s
    | .arr xs => "[" ++ joinStr " " (xs.map (sprintVFuel f)) ++ "]"
    | .obj fs =>
      "map[" ++ joinStr " " (fs.map (fun kv => kv.1 ++ ":" ++ sprintVFuel f kv.2)) ++ "]"

mutual

/-- Structural size of a value, used to provide always-sufficient fuel. -/
def valueSize : Value → Nat
  | .null => 1
  | .bool _ => 1
  | .int _ => 1
  | .float _ => 1
  | .str _ => 1
  | .arr xs => 1 + valueSizeList xs
  | .obj fs => 1 + valueSizeFields fs

/-- Structural size of a list of values. -/
def valueSizeList : List Value → Nat
  | [] => 1
  | v :: rest => 1 + valueSize v + valueSizeList rest

/-- Structural size of the fields of an object. -/
def valueSizeFields : List (String × Value) → Nat
  | [] => 1
  | kv :: rest => 1 + valueSize kv.2 + valueSizeFields rest

end

/-- Model of Go fmt.Sprintf("%v", v): Go prints maps in sorted key order,
which is the canonical order of `Value.obj`. -/
def goSprintV (v : Value) : String :=
  sprintVFuel (valueSize v) v

namespace toon

/-- Options for TOON encoding/decoding (pkg/toon/toon.go). -/
structure Options where
  Indent : Nat
  Delimiter : String
  UseTab : Bool

/-- Model of toon.DefaultOptions. -/
def DefaultOptions : Options :=
  ⟨2, ",", false⟩

/-- Model of toon.parseValue, the decoder's scalar parser.  The source
returns an error value but has no error path, so it is modeled total.
Integral numbers come back as int64, others as float64. -/
def parseValue (s : String) : Value :=
  let s := goTrim s
  if s = "null" then .null
  else if s = "true" then .bool true
  else if s = "false" then .bool false
  else
    match goParseFloat? s with
    | some q => if qIsInt q then .int q.num else .float q
    | none =>
      if goHasPre s "\"" && goHasSuf s "\"" then .str (goTrimChars s ['"'])
      else .str s

/-- Worker for `countIndent`. -/
def countIndentAux : List Char → Nat
  | [] => 0
  | c :: rest =>
    if c = ' ' then 1 + countIndentAux rest
    else if c = '\t' then 2 + countIndentAux rest
    else 0

/-- Model of toon.countIndent: leading spaces count 1, tabs count 2. -/
def countIndent (line : String) : Nat :=
  countIndentAux line.data

/-- Model of toon.parsePrimitiveArray: split the inline value on commas and
parse each piece as a scalar (toon.parseValue never fails). -/
def parsePrimitiveArray (value : String) : Except String Value :=
  .ok (.arr ((goSplit value ",").map (fun v => parseValue (goTrim v))))

/-- Scanner for a quoted CSV field (model of encoding/csv with
LazyQuotes=false); returns the field and the rest, which is empty or
starts at the separating comma.  The fuel is always sufficient. -/
def csvQuoted (fuel : Nat) (cs : List Char) (acc : List Char) : Except String (List Char × List Char) :=
  match fuel with
  | 0 => .error "csv: internal fuel"
  | f + 1 =>
    match cs with
    | [] => .error "csv: extraneous or missing quote in quoted-field"
    | '"' :: rest =>
      match rest with
      | '"' :: rest2 => csvQuoted f rest2 (acc ++ ['"'])
      | [] => .ok (acc, [])
      | ',' :: _ => .ok (acc, rest)
      | _ => .error "csv: extraneous or missing quote in quoted-field"
    | c :: rest => csvQuoted f rest (acc ++ [c])

/-- Scanner for a bare CSV field; a quote inside it is an error, as in
encoding/csv with LazyQuotes=false. -/
def csvBare (cs : List Char) (acc : List Char) : Except String (List Char × List Char) :=
  match cs with
  | [] => .ok (acc, [])
  | ',' :: _ => .ok (acc, cs)
  | '"' :: _ => .error "csv: bare quote in non-quoted-field"
  | c :: rest => csvBare rest (acc ++ [c])

/-- Field loop of the CSV record reader (Comma=',', TrimLeadingSpace=true). -/
def csvFields (fuel : Nat) (cs : List Char) : Except String (List String) :=
  match fuel with
  | 0 => .error "csv: internal fuel"
  | f + 1 =>
    let cs := cs.dropWhile (fun c => c = ' ' || c = '\t')
    match cs with
    | '"' :: rest =>
      match csvQuoted (rest.length + 1) rest [] with
      | .error e => .error e
      | .ok (field, rest2) =>
        match rest2 with
        | [] => .ok [⟨field⟩]
        | _ :: rest3 =>
          match csvFields f rest3 with
          | .error e => .error e
          | .ok fs => .ok ((⟨field⟩ : String) :: fs)
    | _ =>
      match csvBare cs [] with
      | .error e => .error e
      | .ok (field, rest2) =>
        match rest2 with
        | [] => .ok [⟨field⟩]
        | _ :: rest3 =>
          match csvFields f rest3 with
          | .error e => .error e
          | .ok fs => .ok ((⟨field⟩ : String) :: fs)

/-- Model of the encoding/csv Reader.Read call made on one tabular row. -/
def csvReadLine (line : String) : Except String (List String) :=
  csvFields (line.data.length + 1) line.data

/-- Row loop of toon.parseTabularArray; blank rows are skipped (but still
consume their slot, as in the source).  Error messages carry no line
numbers in the model. -/
def parseTabularRowsAux (fields : List String) (rows : List String) : Except String (List Value) :=
  match rows with
  | [] => .ok []
  | row :: rest =>
    let line := goTrim row
    if line = "" then parseTabularRowsAux fields rest
    else
      match csvReadLine line with
      | .error e => .error ("failed to parse tabular row: " ++ e)
      | .ok values =>
        if values.length ≠ fields.length then
          .error ("field count mismatch: expected " ++ natStr fields.length ++
            " fields, got " ++ natStr values.length)
        else
          let obj := (fields.zip values).foldl (fun m kv => goMapSet m kv.1 (parseValue (goTrim kv.2))) []
          match parseTabularRowsAux fields rest with
          | .error e => .error e
          | .ok vs => .ok (.obj obj :: vs)

/-- Model of toon.parseTabularArray: reads up to `length` following lines
as delimiter-separated rows zipped against the header fields. -/
def parseTabularArray (length : Nat) (fields : List String) (rest : List String) : Except String Value :=
  match parseTabularRowsAux fields (rest.take length) with
  | .error e => .error e
  | .ok vs => .ok (.arr vs)

/-- Row loop of toon.parseListArray; rows not starting with '-' are skipped
(but still consume their slot). -/
def parseListRowsAux (rows : List String) : List Value :=
  match rows with
  | [] => []
  | row :: rest =>
    let line := goTrim row
    if goHasPre line "-" then parseValue (goTrim ⟨line.data.drop 1⟩) :: parseListRowsAux rest
    else parseListRowsAux rest

/-- Model of toon.parseListArray: reads up to `length` dash-prefixed lines. -/
def parseListArray (length : Nat) (rest : List String) : Except String Value :=
  .ok (.arr (parseListRowsAux (rest.take length)))

/-- Model of toon.parseArrayHeader: parses `[N]` and an optional field list
from the key, then dispatches to the tabular, inline-primitive or list
array parser.  `rest` is the lines following the header line. -/
def parseArrayHeader (key value : String) (rest : List String) : Except String Value :=
  match indexSub key.data ['['] with
  | none => .error ("invalid array syntax in '" ++ key ++ "'")
  | some st =>
    match indexSub key.data [']'] with
    | none => .error ("invalid array syntax in '" ++ key ++ "'")
    | some en =>
      let lengthStr : String := ⟨goSlice key.data (st + 1) en⟩
      if lengthStr = "" then .error ("empty array length in '" ++ key ++ "'")
      else
        match goAtoi? lengthStr with
        | none => .error ("invalid array length '" ++ lengthStr ++ "'")
        | some len =>
          if len < 0 then .error ("negative array length not allowed: " ++ intStr len)
          else
            if strContains key "\x7b" then
              match indexSub key.data ['\x7b'], indexSub key.data ['\x7d'] with
              | some fs, some fe =>
                let fieldStr : String := ⟨goSlice key.data (fs + 1) fe⟩
                let fields := (goSplit fieldStr ",").map goTrim
                parseTabularArray len.toNat fields rest
              | _, _ => .error "invalid array field syntax"
            else if value ≠ "" then parsePrimitiveArray value
            else parseListArray len.toNat rest

/-- Line loop of toon.parseTOON over the remaining lines.  Faithful to the
source: after parsing an array body or a nested block the loop does NOT
skip the consumed lines, so child lines are also re-parsed at the parent
level; lines without a colon are silently ignored.  The fuel (one unit
per line plus one) is always sufficient. -/
def parseTOONAux (fuel : Nat) (rest : List String) (acc : List (String × Value)) : Except String (List (String × Value)) :=
  match fuel with
  | 0 => .error "toon: nesting too deep"
  | f + 1 =>
    match rest with
    | [] => .ok acc
    | line :: rest2 =>
      if goTrim line = "" then parseTOONAux f rest2 acc
      else if strContains line ":" then
        match splitFirst (goTrim line).data [':'] with
        | none => parseTOONAux f rest2 acc
        | some (kcs, vcs) =>
          let key := goTrim ⟨kcs⟩
          let value := goTrim ⟨vcs⟩
          let indent := countIndent line
          if goHasPre key "[" || strContains key "[" then
            match parseArrayHeader key value rest2 with
            | .error e => .error e
            | .ok arrv =>
              let actualKey :=
                match indexSub key.data ['['] with
                | some idx => if 0 < idx then (⟨key.data.take idx⟩ : String) else key
                | none => key
              parseTOONAux f rest2 (goMapSet acc actualKey arrv)
          else if value ≠ "" then
            parseTOONAux f rest2 (goMapSet acc key (parseValue value))
          else
            let block := rest2.takeWhile (fun l => indent < countIndent l)
            if 0 < block.length then
              match parseTOONAux f block [] with
              | .error e => .error ("failed to parse nested object at key '" ++ key ++ "': " ++ e)
              | .ok nested => parseTOONAux f rest2 (goMapSet acc key (.obj nested))
            else parseTOONAux f rest2 (goMapSet acc key (.obj []))
      else parseTOONAux f rest2 acc

/-- Model of toon.parseTOON: an empty line list yields Go's nil (null), any
other input builds an object from the line loop. -/
def parseTOON (lines : List String) : Except String Value :=
  if lines.isEmpty then .ok .null
  else
    match parseTOONAux (lines.length + 1) lines [] with
    | .error e => .error e
    | .ok fields => .ok (.obj fields)

/-- Model of toon.Decode. -/
def Decode (input : String) : Except String Value :=
  if input = "" then .error "empty input"
  else parseTOON (goSplit input "\n")

/-- Model of toon.looksLikeNumber: nonempty and accepted by ParseFloat. -/
def looksLikeNumber (s : String) : Bool :=
  s ≠ "" && (goParseFloat? s).isSome

/-- Model of toon.encodeString: quote the string when the decoder could
misread it, escaping interior quotes. -/
def encodeString (s : String) (delimiter : String) : String :=
  let needsQuote :=
    goHasPre s " " || goHasSuf s " " || strContains s delimiter ||
    strContains s ":" || strContains s "\n" ||
    s = "true" || s = "false" || s = "null" ||
    goHasPre s "-" || looksLikeNumber s
  if needsQuote then "\"" ++ goReplaceAll s "\"" "\\\"" ++ "\"" else s

/-- Model of toon.isUniformArray: nonempty, all objects, all sharing the
first object's key set (same cardinality and membership). -/
def isUniformArray (xs : List Value) : Bool :=
  match xs with
  | [] => false
  | first :: rest =>
    match first with
    | .obj ff =>
      let firstKeys := ff.map Prod.fst
      rest.all (fun item =>
        match item with
        | .obj g => g.length = firstKeys.length && firstKeys.all (fun k => (goMapGet g k).isSome)
        | _ => false)
    | _ => false

/-- Model of toon.isAllPrimitives: no element is an array or object. -/
def isAllPrimitives (xs : List Value) : Bool :=
  xs.all (fun v =>
    match v with
    | .arr _ => false
    | .obj _ => false
    | _ => true)

/-- Model of toon.makeIndent. -/
def makeIndent (depth : Nat) (opts : Options) : String :=
  if depth = 0 then ""
  else if opts.UseTab then ⟨List.replicate depth '\t'⟩
  else ⟨List.replicate (depth * opts.Indent) ' '⟩

/-- Model of toon.encodePrimitiveArray: all scalars inline on one line. -/
def encodePrimitiveArray (xs : List Value) (opts : Options) : Except String String :=
  .ok ("[" ++ natStr xs.length ++ "]: " ++ joinStr opts.Delimiter (xs.map (fun item =>
    match item with
    | .str s => encodeString s opts.Delimiter
    | .bool b => if b then "true" else "false"
    | v => goSprintV v)))

/-- Model of toon.encodeTabularArray: header with the first object's keys
in sorted order, then one delimiter-separated row per element (non-object
elements are skipped; row cells print via %v except strings and null). -/
def encodeTabularArray (xs : List Value) (opts : Options) (depth : Nat) : Except String String :=
  match xs with
  | [] => .ok "[0]:"
  | first :: _ =>
    match first with
    | .obj ff =>
      let fields := sortStrings (ff.map Prod.fst)
      let header := "[" ++ natStr xs.length ++ "]\x7b" ++ joinStr opts.Delimiter fields ++ "\x7d:"
      let indent := makeIndent depth opts
      let rows := xs.filterMap (fun item =>
        match item with
        | .obj g => some (indent ++ joinStr opts.Delimiter (fields.map (fun field =>
            match goMapGet g field with
            | some (.str s) => encodeString s opts.Delimiter
            | some .null => "null"
            | none => "null"
            | some v => goSprintV v)))
        | _ => none)
      .ok (header ++ "\n" ++ joinStr "\n" rows)
    | _ => .error "expected object in uniform array"

mutual

/-- Model of toon.encode: dispatch on the runtime type of the value.  The
fuel models recursion depth and is always sufficient when entered through
`Encode`. -/
def encode (fuel : Nat) (v : Value) (opts : Options) (depth : Nat) : Except String String :=
  match fuel with
  | 0 => .error "encode: nesting too deep"
  | f + 1 =>
    match v with
    | .null => .ok "null"
    | .obj fields => encodeObject f fields opts depth
    | .arr xs => encodeArray f xs opts depth
    | .bool b => .ok (if b then "true" else "false")
    | .int n => .ok (intStr n)
    | .float q => .ok (goFormatFloat q)
    | .str s => .ok (encodeString s opts.Delimiter)
termination_by structural fuel

/-- Model of toon.encodeObject: one line per key in sorted order (the
canonical field order), joined with newlines; empty objects encode as "". -/
def encodeObject (fuel : Nat) (fields : List (String × Value)) (opts : Options) (depth : Nat) : Except String String :=
  match fuel with
  | 0 => .error "encode: nesting too deep"
  | f + 1 =>
    if fields.isEmpty then .ok ""
    else
      match encodeObjectLines f fields opts depth with
      | .error e => .error e
      | .ok lines => .ok (joinStr "\n" lines)
termination_by structural fuel

/-- Key loop of toon.encodeObject, producing the list of emitted lines
(a nested block is one multi-line entry, as in the source). -/
def encodeObjectLines (fuel : Nat) (fields : List (String × Value)) (opts : Options) (depth : Nat) : Except String (List String) :=
  match fuel with
  | 0 => .error "encode: nesting too deep"
  | f + 1 =>
    match fields with
    | [] => .ok []
    | (key, value) :: rest =>
      let indent := makeIndent depth opts
      match value with
      | .null =>
        match encodeObjectLines f rest opts depth with
        | .error e => .error e
        | .ok ls => .ok ((indent ++ key ++ ": null") :: ls)
      | .obj vf =>
        match encodeObject f vf opts (depth + 1) with
        | .error e => .error e
        | .ok nested =>
          match encodeObjectLines f rest opts depth with
          | .error e => .error e
          | .ok ls => .ok ((indent ++ key ++ ":") :: nested :: ls)
      | .arr xs =>
        match encodeArray f xs opts (depth + 1) with
        | .error e => .error e
        | .ok encoded =>
          match encodeObjectLines f rest opts depth with
          | .error e => .error e
          | .ok ls => .ok ((indent ++ key ++ encoded) :: ls)
      | other =>
        match encode f other opts depth with
        | .error e => .error e
        | .ok enc =>
          match encodeObjectLines f rest opts depth with
          | .error e => .error e
          | .ok ls => .ok ((indent ++ key ++ ": " ++ enc) :: ls)
termination_by structural fuel

/-- Model of toon.encodeArray (and its alias encodeArrayValue): tabular for
uniform object arrays, inline for all-scalar arrays, dash list otherwise. -/
def encodeArray (fuel : Nat) (xs : List Value) (opts : Options) (depth : Nat) : Except String String :=
  match fuel with
  | 0 => .error "encode: nesting too deep"
  | f + 1 =>
    if xs.isEmpty then .ok "[0]:"
    else if isUniformArray xs then encodeTabularArray xs opts depth
    else if isAllPrimitives xs then encodePrimitiveArray xs opts
    else
      match encodeMixedItems f xs opts depth with
      | .error e => .error e
      | .ok ls => .ok (joinStr "\n" (("[" ++ natStr xs.length ++ "]:") :: ls))
termination_by structural fuel

/-- Item loop of toon.encodeMixedArray: one dash-prefixed line per element. -/
def encodeMixedItems (fuel : Nat) (xs : List Value) (opts : Options) (depth : Nat) : Except String (List String) :=
  match fuel with
  | 0 => .error "encode: nesting too deep"
  | f + 1 =>
    match xs with
    | [] => .ok []
    | item :: rest =>
      match encode f item opts depth with
      | .error e => .error e
      | .ok enc =>
        match encodeMixedItems f rest opts depth with
        | .error e => .error e
        | .ok ls => .ok ((makeIndent depth opts ++ "- " ++ enc) :: ls)
termination_by structural fuel

end

/-- Model of toon.Encode; the fuel bound always dominates the recursion
depth of `encode`. -/
def Encode (v : Value) (opts : Options) : Except String String :=
  encode (3 * valueSize v + 3) v opts 0

end toon

namespace query

/-- Model of query.parseValue, the engine's literal parser: unlike the
decoder's scalar parser it always yields float64 for numbers.  The source
returns an error value but has no error path, so it is modeled total. -/
def parseValue (s : String) : Value :=
  let s := goTrim s
  if s = "null" then .null
  else if s = "true" then .bool true
  else if s = "false" then .bool false
  else
    match goParseFloat? s with
    | some q => .float q
    | none =>
      if goHasPre s "\"" && goHasSuf s "\"" then .str (goTrimChars s ['"'])
      else .str s

/-- Model of query.isTruthy: only nil and false are falsy. -/
def isTruthy : Value → Bool
  | .null => false
  | .bool b => b
  | _ => true

/-- Model of query.toNumber: float64 and int values coerce, nothing else. -/
def toNumber : Value → Option Q
  | .float q => some q
  | .int n => some (qInt n)
  | _ => none

/-- Model of query.compareValues: numeric comparison when both sides
coerce to numbers, otherwise string-representation equality for == and
!=, and an error for ordering operators. -/
def compareValues (left right : Value) (op : String) : Except String Bool :=
  let strCmp : Except String Bool :=
    if op = "==" then .ok (goSprintV left == goSprintV right)
    else if op = "!=" then .ok (goSprintV left != goSprintV right)
    else .error ("cannot compare values with operator " ++ op)
  match toNumber left, toNumber right with
  | some l, some r =>
    if op = ">" then .ok (qLt r l)
    else if op = "<" then .ok (qLt l r)
    else if op = ">=" then .ok (qLe r l)
    else if op = "<=" then .ok (qLe l r)
    else if op = "==" then .ok (l == r)
    else if op = "!=" then .ok (l != r)
    else strCmp
  | _, _ => strCmp

/-- Model of query.compareForSort: nil sorts lowest, numbers numerically,
everything else by its %v string rendering. -/
def compareForSort (a b : Value) : Int :=
  match a, b with
  | .null, .null => 0
  | .null, _ => -1
  | _, .null => 1
  | _, _ =>
    match toNumber a, toNumber b with
    | some x, some y => if qLt x y then -1 else if qLt y x then 1 else 0
    | _, _ =>
      let sa := goSprintV a
      let sb := goSprintV b
      if strLt sa sb then -1 else if strLt sb sa then 1 else 0

/-- Character loop shared by query.splitByComma and query.splitPipe:
split on the separator only at bracket depth zero. -/
def splitDepthAux (sepc : Char) (cs : List Char) (depth : Int) (cur : List Char) (parts : List (List Char)) : List (List Char) :=
  match cs with
  | [] => if 0 < cur.length then parts ++ [cur] else parts
  | c :: rest =>
    if c = '(' || c = '[' || c = '\x7b' then splitDepthAux sepc rest (depth + 1) (cur ++ [c]) parts
    else if c = ')' || c = ']' || c = '\x7d' then splitDepthAux sepc rest (depth - 1) (cur ++ [c]) parts
    else if c = sepc && depth = 0 then splitDepthAux sepc rest depth [] (parts ++ [cur])
    else splitDepthAux sepc rest depth (cur ++ [c]) parts

/-- Model of query.splitByComma. -/
def splitByComma (s : String) : List String :=
  (splitDepthAux ',' s.data 0 [] []).map (⟨·⟩)

/-- Model of query.splitPipe. -/
def splitPipe (s : String) : List String :=
  (splitDepthAux '|' s.data 0 [] []).map (⟨·⟩)

/-- Model of query.splitByString: like `splitPipe` but with a multi-char
separator, recognized only at bracket depth zero.  The fuel is always
sufficient for the nonempty separators the source uses. -/
def splitByStringAux (fuel : Nat) (sep : List Char) (cs : List Char) (depth : Int) (cur : List Char) (parts : List (List Char)) : List (List Char) :=
  match fuel with
  | 0 => if 0 < cur.length then parts ++ [cur] else parts
  | f + 1 =>
    match cs with
    | [] => if 0 < cur.length then parts ++ [cur] else parts
    | c :: rest =>
      if depth = 0 && sep.isPrefixOf (c :: rest) then
        splitByStringAux f sep ((c :: rest).drop sep.length) depth [] (parts ++ [cur])
      else
        let depth2 :=
          if c = '(' || c = '[' || c = '\x7b' then depth + 1
          else if c = ')' || c = ']' || c = '\x7d' then depth - 1
          else depth
        splitByStringAux f sep rest depth2 (cur ++ [c]) parts

/-- Model of query.splitByString on strings. -/
def splitByString (s sep : String) : List String :=
  (splitByStringAux (s.data.length + 1) sep.data s.data 0 [] []).map (⟨·⟩)

/-- Dotted-path loop of query.executeFieldAccess: walk nested objects; a
missing field aborts the whole walk with Go's `nil, nil` (ok null). -/
def fieldPathLoop (parts : List String) (current : Value) : Except String Value :=
  match parts with
  | [] => .ok current
  | p :: rest =>
    if p = "" then fieldPathLoop rest current
    else
      match current with
      | .obj m =>
        match goMapGet m p with
        | some v => fieldPathLoop rest v
        | none => .ok .null
      | _ => .error ("cannot access field '" ++ p ++ "' on non-object")

mutual

/-- Model of query.Engine.executeFieldAccess: handles `[]` fan-out paths,
bracket indexing, and plain dotted paths.  The fuel models the Go call
stack shared with executeArrayIndex. -/
def executeFieldAccess (fuel : Nat) (q : String) (data : Value) : Except String Value :=
  match fuel with
  | 0 => .error "execution too deep"
  | f + 1 =>
    let path := goDropPre q "."
    if strContains path "[]" then
      match splitFirst path.data ['[', ']'] with
      | none => .error "unreachable: split on [] after Contains"
      | some (beforeCs, afterCs0) =>
        let beforeArray : String := ⟨beforeCs⟩
        let afterArray := goDropPre ⟨afterCs0⟩ "."
        let arrRes : Except String (List Value) :=
          if beforeArray = "" then
            match data with
            | .arr elems => .ok elems
            | _ => .error "data is not an array"
          else
            match executeFieldAccess f ("." ++ beforeArray) data with
            | .error e => .error e
            | .ok (.arr elems) => .ok elems
            | .ok _ => .error ("field '" ++ beforeArray ++ "' is not an array")
        match arrRes with
        | .error e => .error e
        | .ok elems =>
          if afterArray ≠ "" then
            match fieldFanout f afterArray elems with
            | .error e => .error e
            | .ok results => .ok (.arr results)
          else .ok (.arr elems)
    else if strContains path "[" then executeArrayIndex f path data
    else fieldPathLoop (goSplit path ".") data
termination_by structural fuel

/-- Per-element loop of the `.items[].field` branch of executeFieldAccess;
unlike the pipe fan-out it keeps null results. -/
def fieldFanout (fuel : Nat) (afterArray : String) (elems : List Value) : Except String (List Value) :=
  match fuel with
  | 0 => .error "execution too deep"
  | f + 1 =>
    match elems with
    | [] => .ok []
    | e :: rest =>
      match executeFieldAccess f ("." ++ afterArray) e with
      | .error err => .error err
      | .ok r =>
        match fieldFanout f afterArray rest with
        | .error err => .error err
        | .ok rs => .ok (r :: rs)
termination_by structural fuel

/-- Model of query.Engine.executeArrayIndex: `field[i].rest` access with
negative indices resolved as length+i at evaluation time and a bounds
check after resolution. -/
def executeArrayIndex (fuel : Nat) (path : String) (data : Value) : Except String Value :=
  match fuel with
  | 0 => .error "execution too deep"
  | f + 1 =>
    match indexSub path.data ['['] with
    | none => .error ("no array index found in path: " ++ path)
    | some bs =>
      match indexSub path.data [']'] with
      | none => .error ("unclosed bracket in path: " ++ path)
      | some be =>
        let fieldPart : String := if 0 < bs then ⟨path.data.take bs⟩ else ""
        let indexStr : String := ⟨goSlice path.data (bs + 1) be⟩
        let remainingPath : String :=
          if be + 1 < path.data.length then goDropPre ⟨path.data.drop (be + 1)⟩ "." else ""
        let arrRes : Except String (List Value) :=
          if fieldPart ≠ "" then
            match executeFieldAccess f ("." ++ fieldPart) data with
            | .error e => .error e
            | .ok (.arr elems) => .ok elems
            | .ok _ => .error ("field '" ++ fieldPart ++ "' is not an array")
          else
            match data with
            | .arr elems => .ok elems
            | _ => .error "data is not an array"
        match arrRes with
        | .error e => .error e
        | .ok elems =>
          match goAtoi? indexStr with
          | none => .error ("invalid array index '" ++ indexStr ++ "'")
          | some idx0 =>
            let idx : Int := if idx0 < 0 then (elems.length : Int) + idx0 else idx0
            if idx < 0 || (elems.length : Int) ≤ idx then
              .error ("array index out of bounds: " ++ intStr idx ++
                " (array length: " ++ natStr elems.length ++ ")")
            else
              let result := elems.getD idx.toNat .null
              if remainingPath ≠ "" then executeFieldAccess f ("." ++ remainingPath) result
              else .ok result
termination_by structural fuel

end

/-- Type of a pending query.Engine.executeQuery call at the remaining
stack depth, passed to the evaluator pieces that re-enter the engine. -/
abbrev Exeq := String → Value → Except String Value

/-- Model of query.funcLength: arrays, objects, strings (byte length) and
null (0); anything else is a type error naming the function. -/
def funcLength (data : Value) : Except String Value :=
  match data with
  | .null => .ok (.int 0)
  | .arr xs => .ok (.int xs.length)
  | .obj m => .ok (.int m.length)
  | .str s => .ok (.int s.utf8ByteSize)
  | v => .error ("length not supported for type " ++ goTypeName v)

/-- Model of query.funcKeys: sorted keys of an object, indices of an array. -/
def funcKeys (data : Value) : Except String Value :=
  match data with
  | .obj m => .ok (.arr ((sortStrings (m.map Prod.fst)).map .str))
  | .arr xs => .ok (.arr ((List.range xs.length).map (fun i => .int i)))
  | v => .error ("keys not supported for type " ++ goTypeName v)

/-- Model of query.funcValues: object values in sorted key order, or the
array itself. -/
def funcValues (data : Value) : Except String Value :=
  match data with
  | .obj m => .ok (.arr ((sortStrings (m.map Prod.fst)).map (fun k => (goMapGet m k).getD .null)))
  | .arr xs => .ok (.arr xs)
  | v => .error ("values not supported for type " ++ goTypeName v)

/-- Model of query.funcType. -/
def funcType (data : Value) : Except String Value :=
  match data with
  | .null => .ok (.str "null")
  | .bool _ => .ok (.str "boolean")
  | .float _ => .ok (.str "number")
  | .int _ => .ok (.str "number")
  | .str _ => .ok (.str "string")
  | .arr _ => .ok (.str "array")
  | .obj _ => .ok (.str "object")

/-- Model of query.funcSort: sort a copy by compareForSort. -/
def funcSort (data : Value) : Except String Value :=
  match data with
  | .arr xs => .ok (.arr (sortLe (fun a b => decide (compareForSort a b < 0)) xs))
  | _ => .error "sort requires an array"

/-- Model of query.funcReverse. -/
def funcReverse (data : Value) : Except String Value :=
  match data with
  | .arr xs => .ok (.arr xs.reverse)
  | _ => .error "reverse requires an array"

/-- Model of query.funcHas: true iff the object has the (unquoted) key;
non-objects yield false rather than an error. -/
def funcHas (key : String) (data : Value) : Except String Value :=
  let key := goTrimChars (goTrim key) ['"']
  match data with
  | .obj m => .ok (.bool (goMapGet m key).isSome)
  | _ => .ok (.bool false)

/-- Model of query.funcSplit. -/
def funcSplit (delimiter : String) (data : Value) : Except String Value :=
  match data with
  | .str s => .ok (.arr ((goSplit s (goTrimChars (goTrim delimiter) ['"'])).map .str))
  | _ => .error "split requires a string"

/-- Model of query.funcJoin: elements are rendered with %v. -/
def funcJoin (delimiter : String) (data : Value) : Except String Value :=
  match data with
  | .arr xs => .ok (.str (joinStr (goTrimChars (goTrim delimiter) ['"']) (xs.map goSprintV)))
  | _ => .error "join requires an array"

/-- Model of query.funcStartsWith; non-strings yield false, not an error. -/
def funcStartsWith (pre : String) (data : Value) : Except String Value :=
  match data with
  | .str s => .ok (.bool (goHasPre s (goTrimChars (goTrim pre) ['"'])))
  | _ => .ok (.bool false)

/-- Model of query.funcEndsWith; non-strings yield false, not an error. -/
def funcEndsWith (suf : String) (data : Value) : Except String Value :=
  match data with
  | .str s => .ok (.bool (goHasSuf s (goTrimChars (goTrim suf) ['"'])))
  | _ => .ok (.bool false)

/-- Model of query.funcContains; non-strings yield false, not an error. -/
def funcContains (sub : String) (data : Value) : Except String Value :=
  match data with
  | .str s => .ok (.bool (strContains s (goTrimChars (goTrim sub) ['"'])))
  | _ => .ok (.bool false)

/-- Summation loop of query.funcAdd. -/
def funcAddLoop (idx : Nat) (sum : Q) : List Value → Except String Q
  | [] => .ok sum
  | v :: rest =>
    match toNumber v with
    | none => .error ("add: element at index " ++ natStr idx ++ " is not a number")
    | some n => funcAddLoop (idx + 1) (qAdd sum n) rest

/-- Model of query.funcAdd: sums numbers into a float64. -/
def funcAdd (data : Value) : Except String Value :=
  match data with
  | .arr xs => (funcAddLoop 0 (qInt 0) xs).map .float
  | _ => .error "add requires an array"

/-- Minimum loop of query.funcMin. -/
def funcMinLoop (idx : Nat) (cur : Q) : List Value → Except String Q
  | [] => .ok cur
  | v :: rest =>
    match toNumber v with
    | none => .error ("min: element at index " ++ natStr idx ++ " is not a number")
    | some n => funcMinLoop (idx + 1) (if qLt n cur then n else cur) rest

/-- Model of query.funcMin: minimum as a float64. -/
def funcMin (data : Value) : Except String Value :=
  match data with
  | .arr [] => .error "min: empty array"
  | .arr (x :: rest) =>
    match toNumber x with
    | none => .error "min: first element is not a number"
    | some n => (funcMinLoop 1 n rest).map .float
  | _ => .error "min requires an array"

/-- Maximum loop of query.funcMax. -/
def funcMaxLoop (idx : Nat) (cur : Q) : List Value → Except String Q
  | [] => .ok cur
  | v :: rest =>
    match toNumber v with
    | none => .error ("max: element at index " ++ natStr idx ++ " is not a number")
    | some n => funcMaxLoop (idx + 1) (if qLt cur n then n else cur) rest

/-- Model of query.funcMax: maximum as a float64. -/
def funcMax (data : Value) : Except String Value :=
  match data with
  | .arr [] => .error "max: empty array"
  | .arr (x :: rest) =>
    match toNumber x with
    | none => .error "max: first element is not a number"
    | some n => (funcMaxLoop 1 n rest).map .float
  | _ => .error "max requires an array"

/-- Model of query.funcFloor. -/
def funcFloor (data : Value) : Except String Value :=
  match toNumber data with
  | none => .error "floor requires a number"
  | some q => .ok (.float (qInt (qFloor q)))

/-- Model of query.funcCeil. -/
def funcCeil (data : Value) : Except String Value :=
  match toNumber data with
  | none => .error "ceil requires a number"
  | some q => .ok (.float (qInt (qCeil q)))

/-- Model of query.funcRound (math.Round: half away from zero). -/
def funcRound (data : Value) : Except String Value :=
  match toNumber data with
  | none => .error "round requires a number"
  | some q =>
    .ok (.float (qInt (if q.num < 0 then -qFloor (qAdd (qNeg q) (mkQ 1 2)) else qFloor (qAdd q (mkQ 1 2)))))

/-- Element loop of query.funcUnique: dedup by the %v string rendering,
keeping the first occurrence of each rendering in order. -/
def funcUniqueLoop (elems : List Value) (seen : List String) (acc : List Value) : List Value :=
  match elems with
  | [] => acc
  | v :: rest =>
    let key := goSprintV v
    if seen.contains key then funcUniqueLoop rest seen acc
    else funcUniqueLoop rest (key :: seen) (acc ++ [v])

/-- Model of query.funcUnique. -/
def funcUnique (data : Value) : Except String Value :=
  match data with
  | .arr xs => .ok (.arr (funcUniqueLoop xs [] []))
  | _ => .error "unique requires an array"

/-- Model of query.flattenArray; the fuel (any bound on nesting depth) is
always sufficient when called through funcFlatten. -/
def flattenAux (fuel : Nat) (depth : Int) (xs : List Value) : List Value :=
  match fuel with
  | 0 => xs
  | f + 1 =>
    if depth ≤ 0 then xs
    else
      xs.foldr (fun v acc =>
        match v with
        | .arr sub => flattenAux f (depth - 1) sub ++ acc
        | _ => v :: acc) []

/-- Model of query.funcFlatten. -/
def funcFlatten (depthStr : String) (data : Value) : Except String Value :=
  match data with
  | .arr xs =>
    if depthStr = "" then .ok (.arr (flattenAux (valueSize data) 1 xs))
    else
      match goAtoi? (goTrim depthStr) with
      | none => .error "flatten: invalid depth"
      | some d => .ok (.arr (flattenAux (valueSize data) d xs))
  | _ => .error "flatten requires an array"

/-- Counting loop of query.funcRange; `up` selects the i<to / i>to guard. -/
def rangeAux (fuel : Nat) (i tov stepv : Int) (up : Bool) : List Int :=
  match fuel with
  | 0 => []
  | f + 1 =>
    if up then (if i < tov then i :: rangeAux f (i + stepv) tov stepv up else [])
    else (if tov < i then i :: rangeAux f (i + stepv) tov stepv up else [])

/-- Model of query.funcRange: range(n), range(from;to), range(from;to;step). -/
def funcRange (argsStr : String) (_data : Value) : Except String Value :=
  match goSplit argsStr ";" with
  | [] => .error "range requires at least one argument"
  | [_] =>
    if argsStr = "" then .error "range requires at least one argument"
    else
      match goAtoi? (goTrim argsStr) with
      | none => .error "range: invalid argument"
      | some tov => .ok (.arr ((rangeAux (tov.natAbs + 1) 0 tov 1 true).map .int))
  | [a1, a2] =>
    match goAtoi? (goTrim a1) with
    | none => .error "range: invalid 'from'"
    | some fromv =>
      match goAtoi? (goTrim a2) with
      | none => .error "range: invalid 'to'"
      | some tov => .ok (.arr ((rangeAux ((tov - fromv).natAbs + 1) fromv tov 1 true).map .int))
  | [a1, a2, a3] =>
    match goAtoi? (goTrim a1) with
    | none => .error "range: invalid 'from'"
    | some fromv =>
      match goAtoi? (goTrim a2) with
      | none => .error "range: invalid 'to'"
      | some tov =>
        match goAtoi? (goTrim a3) with
        | none => .error "range: invalid 'step'"
        | some stepv =>
          if stepv = 0 then .error "range: step cannot be zero"
          else if 0 < stepv then
            .ok (.arr ((rangeAux ((tov - fromv).natAbs + 1) fromv tov stepv true).map .int))
          else
            .ok (.arr ((rangeAux ((fromv - tov).natAbs + 1) fromv tov stepv false).map .int))
  | _ => .error "range: too many arguments"

/-- Model of query.funcFirst: first element, or first n as a sub-array. -/
def funcFirst (argsStr : String) (data : Value) : Except String Value :=
  match data with
  | .arr [] => .ok .null
  | .arr (x :: rest) =>
    if argsStr = "" then .ok x
    else
      match goAtoi? (goTrim argsStr) with
      | none => .error "first: invalid argument"
      | some n =>
        if n < 0 then .error "first: argument must be non-negative"
        else .ok (.arr ((x :: rest).take n.toNat))
  | _ => .error "first requires an array"

/-- Model of query.funcLast: last element, or last n as a sub-array. -/
def funcLast (argsStr : String) (data : Value) : Except String Value :=
  match data with
  | .arr [] => .ok .null
  | .arr (x :: rest) =>
    if argsStr = "" then .ok ((x :: rest).getLastD x)
    else
      match goAtoi? (goTrim argsStr) with
      | none => .error "last: invalid argument"
      | some n =>
        if n < 0 then .error "last: argument must be non-negative"
        else .ok (.arr ((x :: rest).drop ((x :: rest).length - n.toNat)))
  | _ => .error "last requires an array"

/-- Model of query.funcToString: scalars only; integral floats print with
no decimal point. -/
def funcToString (data : Value) : Except String Value :=
  match data with
  | .null => .ok (.str "null")
  | .str s => .ok (.str s)
  | .float q => .ok (.str (if qIsInt q then intStr q.num else goFormatFloat q))
  | .bool b => .ok (.str (if b then "true" else "false"))
  | .arr _ => .error "tostring cannot convert arrays or objects"
  | .obj _ => .error "tostring cannot convert arrays or objects"
  | .int n => .ok (.str (intStr n))

/-- Model of query.funcToNumber; note the source's type switch has no
int64 case, so decoded integers fall to the default error. -/
def funcToNumber (data : Value) : Except String Value :=
  match data with
  | .float q => .ok (.float q)
  | .str s =>
    match goParseFloat? s with
    | some q => .ok (.float q)
    | none => .error ("tonumber: cannot parse '" ++ s ++ "' as number")
  | .bool b => .ok (.float (qInt (if b then 1 else 0)))
  | .null => .error "tonumber: cannot convert null to number"
  | v => .error ("tonumber: cannot convert " ++ goTypeName v ++ " to number")

/-- Model of query.funcLTrimStr. -/
def funcLTrimStr (argsStr : String) (data : Value) : Except String Value :=
  match data with
  | .str s => .ok (.str (goDropPre s (goTrimChars argsStr ['"', '\''])))
  | v => .error ("ltrimstr requires a string, got " ++ goTypeName v)

/-- Model of query.funcRTrimStr. -/
def funcRTrimStr (argsStr : String) (data : Value) : Except String Value :=
  match data with
  | .str s => .ok (.str (goDropSuf s (goTrimChars argsStr ['"', '\''])))
  | v => .error ("rtrimstr requires a string, got " ++ goTypeName v)

/-- Model of query.funcToEntries: `{key, value}` objects in sorted order. -/
def funcToEntries (data : Value) : Except String Value :=
  match data with
  | .obj m => .ok (.arr ((sortStrings (m.map Prod.fst)).map (fun k =>
      .obj [("key", .str k), ("value", (goMapGet m k).getD .null)])))
  | v => .error ("to_entries requires an object, got " ++ goTypeName v)

/-- Element loop of query.funcFromEntries. -/
def fromEntriesLoop (idx : Nat) (acc : List (String × Value)) : List Value → Except String (List (String × Value))
  | [] => .ok acc
  | item :: rest =>
    match item with
    | .obj entry =>
      let keyRes : Except String String :=
        match goMapGet entry "key" with
        | some (.str k) => .ok k
        | some _ => .error ("from_entries: element " ++ natStr idx ++ " has non-string key")
        | none =>
          match goMapGet entry "name" with
          | some (.str k) => .ok k
          | some _ => .error ("from_entries: element " ++ natStr idx ++ " has non-string name")
          | none => .error ("from_entries: element " ++ natStr idx ++ " missing 'key' or 'name' field")
      match keyRes with
      | .error e => .error e
      | .ok k =>
        match goMapGet entry "value" with
        | none => .error ("from_entries: element " ++ natStr idx ++ " missing 'value' field")
        | some v => fromEntriesLoop (idx + 1) (goMapSet acc k v) rest
    | _ => .error ("from_entries: element " ++ natStr idx ++ " is not an object")

/-- Model of query.funcFromEntries. -/
def funcFromEntries (data : Value) : Except String Value :=
  match data with
  | .arr xs => (fromEntriesLoop 0 [] xs).map .obj
  | v => .error ("from_entries requires an array, got " ++ goTypeName v)

/-- Element loop of query.funcMap. -/
def funcMapLoop (exeq : Exeq) (expr : String) (idx : Nat) : List Value → Except String (List Value)
  | [] => .ok []
  | e :: rest =>
    match exeq (goTrim expr) e with
    | .error err => .error ("map error at index " ++ natStr idx ++ ": " ++ err)
    | .ok r =>
      match funcMapLoop exeq expr (idx + 1) rest with
      | .error err => .error err
      | .ok rs => .ok (r :: rs)

/-- Model of query.funcMap. -/
def funcMap (exeq : Exeq) (expr : String) (data : Value) : Except String Value :=
  match data with
  | .arr xs => (funcMapLoop exeq expr 0 xs).map .arr
  | _ => .error "map requires an array"

/-- Sort-key loop of query.funcSortBy, pairing each element with its key. -/
def funcSortByLoop (exeq : Exeq) (expr : String) (idx : Nat) : List Value → Except String (List (Value × Value))
  | [] => .ok []
  | e :: rest =>
    match exeq (goTrim expr) e with
    | .error err => .error ("sort_by error at index " ++ natStr idx ++ ": " ++ err)
    | .ok k =>
      match funcSortByLoop exeq expr (idx + 1) rest with
      | .error err => .error err
      | .ok ks => .ok ((e, k) :: ks)

/-- Model of query.funcSortBy. -/
def funcSortBy (exeq : Exeq) (expr : String) (data : Value) : Except String Value :=
  match data with
  | .arr xs =>
    match funcSortByLoop exeq expr 0 xs with
    | .error e => .error e
    | .ok items =>
      .ok (.arr ((sortLe (fun a b => decide (compareForSort a.2 b.2 < 0)) items).map Prod.fst))
  | _ => .error "sort_by requires an array"

/-- Insertion into the canonical group map of query.funcGroupBy. -/
def groupsAdd (groups : List (String × List Value)) (k : String) (v : Value) : List (String × List Value) :=
  match groups with
  | [] => [(k, [v])]
  | (k', vs) :: rest =>
    if k = k' then (k', vs ++ [v]) :: rest
    else if strLt k k' then (k, [v]) :: (k', vs) :: rest
    else (k', vs) :: groupsAdd rest k v

/-- Grouping loop of query.funcGroupBy: keys are %v renderings. -/
def funcGroupByLoop (exeq : Exeq) (expr : String) (idx : Nat) (groups : List (String × List Value)) : List Value → Except String (List (String × List Value))
  | [] => .ok groups
  | e :: rest =>
    match exeq (goTrim expr) e with
    | .error err => .error ("group_by error at index " ++ natStr idx ++ ": " ++ err)
    | .ok k => funcGroupByLoop exeq expr (idx + 1) (groupsAdd groups (goSprintV k) e) rest

/-- Model of query.funcGroupBy: the canonical group map is already in the
sorted key order the source produces by sorting the collected keys. -/
def funcGroupBy (exeq : Exeq) (expr : String) (data : Value) : Except String Value :=
  match data with
  | .arr xs =>
    match funcGroupByLoop exeq expr 0 [] xs with
    | .error e => .error e
    | .ok groups => .ok (.arr (groups.map (fun g => .arr g.2)))
  | _ => .error "group_by requires an array"

/-- Model of query.funcIn: membership of the input's %v rendering among
the container's elements or object values. -/
def funcIn (exeq : Exeq) (container : String) (data : Value) : Except String Value :=
  match exeq (goTrim container) data with
  | .error e => .error e
  | .ok c =>
    match c with
    | .arr vs => .ok (.bool (vs.any (fun v => goSprintV v == goSprintV data)))
    | .obj m => .ok (.bool (m.any (fun kv => goSprintV kv.2 == goSprintV data)))
    | _ => .ok (.bool false)

/-- Entry loop of query.funcWithEntries. -/
def withEntriesLoop (exeq : Exeq) (expr : String) : List Value → Except String (List Value)
  | [] => .ok []
  | e :: rest =>
    match exeq expr e with
    | .error err => .error ("with_entries: " ++ err)
    | .ok r =>
      match withEntriesLoop exeq expr rest with
      | .error err => .error err
      | .ok rs => .ok (r :: rs)

/-- Model of query.funcWithEntries: to_entries, map, from_entries. -/
def funcWithEntries (exeq : Exeq) (argsStr : String) (data : Value) : Except String Value :=
  match funcToEntries data with
  | .error e => .error e
  | .ok (.arr xs) =>
    match withEntriesLoop exeq argsStr xs with
    | .error e => .error e
    | .ok results => funcFromEntries (.arr results)
  | .ok _ => .error "unreachable: to_entries yields an array"

/-- Model of query.Engine.executeFunction: parse `name(args)` and dispatch
to the built-in function library. -/
def executeFunction (exeq : Exeq) (q : String) (data : Value) : Except String Value :=
  match indexSub q.data ['('] with
  | none => .error ("invalid function syntax: " ++ q)
  | some pi =>
    let funcName := goTrim ⟨q.data.take pi⟩
    let argsStr0 : String := ⟨q.data.drop (pi + 1)⟩
    if !goHasSuf argsStr0 ")" then .error ("unclosed function parenthesis: " ++ q)
    else
      let argsStr := goDropSuf argsStr0 ")"
      if funcName = "length" then funcLength data
      else if funcName = "keys" then funcKeys data
      else if funcName = "values" then funcValues data
      else if funcName = "type" then funcType data
      else if funcName = "sort" then funcSort data
      else if funcName = "sort_by" then funcSortBy exeq argsStr data
      else if funcName = "group_by" then funcGroupBy exeq argsStr data
      else if funcName = "map" then funcMap exeq argsStr data
      else if funcName = "reverse" then funcReverse data
      else if funcName = "has" then funcHas argsStr data
      else if funcName = "in" then funcIn exeq argsStr data
      else if funcName = "split" then funcSplit argsStr data
      else if funcName = "join" then funcJoin argsStr data
      else if funcName = "startswith" then funcStartsWith argsStr data
      else if funcName = "endswith" then funcEndsWith argsStr data
      else if funcName = "contains" then funcContains argsStr data
      else if funcName = "add" then funcAdd data
      else if funcName = "min" then funcMin data
      else if funcName = "max" then funcMax data
      else if funcName = "floor" then funcFloor data
      else if funcName = "ceil" then funcCeil data
      else if funcName = "round" then funcRound data
      else if funcName = "unique" then funcUnique data
      else if funcName = "flatten" then funcFlatten argsStr data
      else if funcName = "range" then funcRange argsStr data
      else if funcName = "first" then funcFirst argsStr data
      else if funcName = "last" then funcLast argsStr data
      else if funcName = "tostring" then funcToString data
      else if funcName = "tonumber" then funcToNumber data
      else if funcName = "ltrimstr" then funcLTrimStr argsStr data
      else if funcName = "rtrimstr" then funcRTrimStr argsStr data
      else if funcName = "to_entries" then funcToEntries data
      else if funcName = "from_entries" then funcFromEntries data
      else if funcName = "with_entries" then funcWithEntries exeq argsStr data
      else .error ("unknown function: " ++ funcName)

/-- Operator scan of query.Engine.evaluateCondition, in source order. -/
def condLoop (exeq : Exeq) (ops : List String) (cond : String) (data : Value) : Except String Bool :=
  match ops with
  | [] => .error ("unsupported condition: " ++ cond)
  | op :: rest =>
    if strContains cond op then
      match splitFirst cond.data op.data with
      | none => .error ("unsupported condition: " ++ cond)
      | some (l, r) =>
        match exeq (goTrim ⟨l⟩) data with
        | .error e => .error e
        | .ok leftVal => compareValues leftVal (parseValue (goTrim ⟨r⟩)) op
    else condLoop exeq rest cond data

/-- Model of query.Engine.evaluateCondition. -/
def evaluateCondition (exeq : Exeq) (cond : String) (data : Value) : Except String Bool :=
  condLoop exeq [">=", "<=", "==", "!=", ">", "<"] cond data

/-- Model of query.Engine.executeSelect: a truthy condition passes the
input through; a falsy one yields Go's `nil, nil`, i.e. null. -/
def executeSelect (exeq : Exeq) (q : String) (data : Value) : Except String Value :=
  if !(goHasPre q "select(" && goHasSuf q ")") then .error "invalid select syntax"
  else
    let condition : String := ⟨goSlice q.data 7 (q.data.length - 1)⟩
    match evaluateCondition exeq condition data with
    | .error e => .error e
    | .ok b => if b then .ok data else .ok .null

/-- Model of query.Engine.executeArrayConstruction: an array result of the
inner query passes through unchanged, any other single result is wrapped. -/
def executeArrayConstruction (exeq : Exeq) (q : String) (data : Value) : Except String Value :=
  let inner := goDropPre (goDropSuf q "]") "["
  if inner = "" then .ok (.arr [])
  else
    match exeq inner data with
    | .error e => .error e
    | .ok (.arr xs) => .ok (.arr xs)
    | .ok r => .ok (.arr [r])

/-- Pair loop of query.Engine.executeObjectConstruction: `key: expr` pairs
and `{name}` shorthand for `{name: .name}`. -/
def objPairsLoop (exeq exefa : Exeq) (data : Value) (pairs : List String) (acc : List (String × Value)) : Except String (List (String × Value)) :=
  match pairs with
  | [] => .ok acc
  | pair :: rest =>
    let p := goTrim pair
    if p = "" then objPairsLoop exeq exefa data rest acc
    else if strContains p ":" then
      match splitFirst p.data [':'] with
      | none => .error ("invalid object construction syntax: " ++ p)
      | some (k, v) =>
        let key := goTrim ⟨k⟩
        let vexpr := goTrim ⟨v⟩
        match exeq vexpr data with
        | .error e => .error ("object construction: evaluating '" ++ vexpr ++ "': " ++ e)
        | .ok value => objPairsLoop exeq exefa data rest (goMapSet acc key value)
    else
      match exefa ("." ++ p) data with
      | .error e => .error ("object construction: accessing field '" ++ p ++ "': " ++ e)
      | .ok value => objPairsLoop exeq exefa data rest (goMapSet acc p value)

/-- Model of query.Engine.executeObjectConstruction. -/
def executeObjectConstruction (exeq exefa : Exeq) (q : String) (data : Value) : Except String Value :=
  let inner := goTrim (goDropPre (goDropSuf q "\x7d") "\x7b")
  if inner = "" then .ok (.obj [])
  else
    match objPairsLoop exeq exefa data (splitByComma inner) [] with
    | .error e => .error e
    | .ok m => .ok (.obj m)

/-- Model of query.Engine.executeIf: string surgery for
`if COND then A else B end`, condition via evaluateCondition when it
contains a comparison character, otherwise by truthiness. -/
def executeIf (exeq : Exeq) (q : String) (data : Value) : Except String Value :=
  if !goHasSuf q " end" then .error "if statement must end with 'end'"
  else
    let inner : String := ⟨goSlice q.data 3 (q.data.length - 4)⟩
    match indexSub inner.data [' ', 't', 'h', 'e', 'n', ' '] with
    | none => .error "if statement missing 'then'"
    | some ti =>
      let condStr := goTrim ⟨inner.data.take ti⟩
      let rest : String := ⟨inner.data.drop (ti + 6)⟩
      match lastIndexSub rest.data [' ', 'e', 'l', 's', 'e', ' '] with
      | none => .error "if statement missing 'else'"
      | some ei =>
        let trueBranch := goTrim ⟨rest.data.take ei⟩
        let falseBranch := goTrim ⟨rest.data.drop (ei + 6)⟩
        let isTrueRes : Except String Bool :=
          if condStr.data.any (fun c => c = '>' || c = '<' || c = '=') then
            evaluateCondition exeq condStr data
          else
            match exeq condStr data with
            | .error e => .error e
            | .ok v => .ok (isTruthy v)
        match isTrueRes with
        | .error e => .error e
        | .ok b => if b then exeq trueBranch data else exeq falseBranch data

/-- Alternative loop of query.Engine.executeAlternative: first successful
truthy result wins; an error propagates immediately; all-falsy falls
through (`none`). -/
def altLoop (exeq : Exeq) (parts : List String) (data : Value) : Option (Except String Value) :=
  match parts with
  | [] => none
  | part :: rest =>
    match exeq (goTrim part) data with
    | .ok v => if isTruthy v then some (.ok v) else altLoop exeq rest data
    | .error e => some (.error e)

/-- Model of query.Engine.executeAlternative: when every alternative is
falsy the last one is re-executed and its value returned. -/
def executeAlternative (exeq : Exeq) (q : String) (data : Value) : Except String Value :=
  let parts := splitByString q "//"
  match altLoop exeq parts data with
  | some r => r
  | none =>
    match parts.getLast? with
    | some last => exeq (goTrim last) data
    | none => .ok .null

/-- Fan-out loop of query.Engine.executePipe: apply the stage to each
element, dropping nil results (the select-filter convention). -/
def pipeFanout (exeq : Exeq) (part : String) (elems : List Value) : Except String (List Value) :=
  match elems with
  | [] => .ok []
  | e :: rest =>
    match exeq part e with
    | .error err => .error err
    | .ok r =>
      match pipeFanout exeq part rest with
      | .error err => .error err
      | .ok rs => .ok (match r with | .null => rs | _ => r :: rs)

/-- Stage loop of query.Engine.executePipe: a stage fans out over an array
result only when the previous stage's text contains "[]". -/
def pipeLoop (exeq : Exeq) (parts : List String) (prev : Option String) (result : Value) : Except String Value :=
  match parts with
  | [] => .ok result
  | part :: rest =>
    let partT := goTrim part
    match result, prev with
    | .arr elems, some pprev =>
      if strContains pprev "[]" then
        match pipeFanout exeq partT elems with
        | .error e => .error e
        | .ok rs => pipeLoop exeq rest (some part) (.arr rs)
      else
        match exeq partT (.arr elems) with
        | .error e => .error e
        | .ok r => pipeLoop exeq rest (some part) r
    | _, _ =>
      match exeq partT result with
      | .error e => .error e
      | .ok r => pipeLoop exeq rest (some part) r

/-- Model of query.Engine.executePipe. -/
def executePipe (exeq : Exeq) (q : String) (data : Value) : Except String Value :=
  pipeLoop exeq (splitPipe q) none data

/-- Model of query.Engine.executeArrayIteration: `.[]` or `.field[]`
returns the underlying array (the caller decides whether to fan out). -/
def executeArrayIteration (exefa : Exeq) (q : String) (data : Value) : Except String Value :=
  let q := goTrim q
  if q = ".[]" then
    match data with
    | .arr elems => .ok (.arr elems)
    | _ => .error "data is not an array"
  else
    match exefa (goDropSuf q "[]") data with
    | .error e => .error e
    | .ok (.arr elems) => .ok (.arr elems)
    | .ok _ => .error "field is not an array"

/-- Model of query.Engine.executeQuery: the source's textual dispatch, in
order.  The fuel stands for the Go call stack; the source recurses on
substrings that do not always shrink (e.g. parenthesized groups), which
this models as fuel exhaustion. -/
def executeQuery (fuel : Nat) (q : String) (data : Value) : Except String Value :=
  match fuel with
  | 0 => .error "execution too deep"
  | f + 1 =>
    if goHasPre q "[" && goHasSuf q "]" then
      executeArrayConstruction (fun qq dd => executeQuery f qq dd) q data
    else if goHasPre q "if " then executeIf (fun qq dd => executeQuery f qq dd) q data
    else if strContains q "//" then executeAlternative (fun qq dd => executeQuery f qq dd) q data
    else if goHasPre q "\x7b" && goHasSuf q "\x7d" then
      executeObjectConstruction (fun qq dd => executeQuery f qq dd) (fun qq dd => executeFieldAccess f qq dd) q data
    else if strContains q "|" then executePipe (fun qq dd => executeQuery f qq dd) q data
    else if strContains q "[]" then executeArrayIteration (fun qq dd => executeFieldAccess f qq dd) q data
    else if goHasPre q "select(" then executeSelect (fun qq dd => executeQuery f qq dd) q data
    else if strContains q "(" && !goHasPre q "." then executeFunction (fun qq dd => executeQuery f qq dd) q data
    else if goHasPre q "." && !strContains q "(" then executeFieldAccess f q data
    else .ok (parseValue q)
termination_by structural fuel

/-- Stack-depth bound used by `Execute`; generous for every terminating
query in this development (the Go engine has no such bound and simply
overflows its stack on the non-terminating ones). -/
def execFuel : Nat := 100

/-- Model of query.Engine.Execute: trim, answer identity immediately,
otherwise run the dispatcher. -/
def Execute (q : String) (data : Value) : Except String Value :=
  let q := goTrim q
  if q = "." then .ok data
  else executeQuery execFuel q data

end query

/-- Specification-side meaning of a single-field access ".name", written
from the spec's words for the amended pipe-composition claim: the named
field of an object (null when missing), an error on non-objects. -/
def fieldLookupSpec (name : String) (v : Value) : Except String Value :=
  match v with
  | .obj m => .ok ((goMapGet m name).getD .null)
  | _ => .error ("cannot access field '" ++ name ++ "' on non-object")

/-- Specification-side description of unique, written from the claim's
words: keep each element whose string rendering has not been kept before,
in original order. -/
def uniqueSpec (acc : List Value) (xs : List Value) : List Value :=
  xs.foldl (fun kept x =>
    if kept.any (fun y => goSprintV y == goSprintV x) then kept else kept ++ [x]) acc

/-- First truthy value of a list (specification-side, for the alternative
operator claim). -/
def firstTruthy (vs : List Value) : Option Value :=
  vs.find? query.isTruthy

/-- Specification-side predicate for the amended round-trip claim: a key
the decoder's line parser reads back verbatim (nonempty, no colon,
bracket or newline, no white space at either end). -/
def plainKey (k : String) : Bool :=
  !k.data.isEmpty &&
  !(k.data.any (fun c => c = ':' || c = '[' || c = '\n')) &&
  !goIsSpace (k.data.headD 'x') && !goIsSpace (k.data.getLastD 'x')

/-- Specification-side predicate for the amended round-trip claim: scalar
values whose default-options encoding the decoder reads back verbatim.
Floats are excluded because integral floats decode as int64; ints beyond
2^53 are excluded because Go parses them back through float64; strings
must not need quoting, not carry white space or quotes at their ends. -/
def plainScalar : Value → Bool
  | .null => true
  | .bool _ => true
  | .int n => n.natAbs ≤ 2 ^ 53
  | .str s =>
    !s.data.isEmpty &&
    !goHasPre s " " && !goHasSuf s " " && !strContains s "," && !strContains s ":" &&
    !strContains s "\n" && s != "true" && s != "false" && s != "null" &&
    !goHasPre s "-" && !toon.looksLikeNumber s &&
    !goIsSpace (s.data.headD 'x') && !goIsSpace (s.data.getLastD 'x') &&
    !(goHasPre s "\"" && goHasSuf s "\"")
  | _ => false

/-- Encoding of a plain scalar as emitted by toon.encode at depth 0 with
default options (proof-side shorthand). -/
def scalarEnc : Value → String
  | .null => "null"
  | .bool b => if b then "true" else "false"
  | .int n => intStr n
  | .str s => s
  | _ => ""

/-- The line toon.encodeObject emits for one plain scalar field at depth 0
(proof-side shorthand). -/
def lineOf (kv : String × Value) : String :=
  kv.1 ++ ": " ++ scalarEnc kv.2

/-- Commutativity of string equality tests. -/
theorem strBeq_comm (a b : String) : (a == b) = (b == a) := by
  by_cases h : a = b
  · subst h; rfl
  · simp [beq_eq_false_iff_ne.mpr h, beq_eq_false_iff_ne.mpr (Ne.symm h)]

/-- Equivalence of the source's seen-set loop with the specification-side
fold: the seen set always holds exactly the renderings of the kept list. -/
theorem funcUniqueLoop_eq_spec (xs : List Value) : ∀ (seen : List String) (acc : List Value),
    (∀ s : String, seen.contains s = acc.any (fun y => goSprintV y == s)) →
    query.funcUniqueLoop xs seen acc = uniqueSpec acc xs := by
  induction xs with
  | nil => intro seen acc _; rfl
  | cons v rest ih =>
    intro seen acc h
    simp only [query.funcUniqueLoop, uniqueSpec, List.foldl_cons]
    rw [h (goSprintV v)]
    by_cases hc : acc.any (fun y => goSprintV y == goSprintV v) = true
    · simp only [hc, if_true]
      exact ih seen acc h
    · simp only [eq_false_of_ne_true hc, if_false]
      apply ih
      intro s
      simp only [List.contains_cons, List.any_append, List.any_cons, List.any_nil,
        Bool.or_false, h s, strBeq_comm]
      exact Bool.or_comm _ _

/-- C10: the unique function deduplicates array elements by their %v string
rendering, keeping the first occurrence of each rendering in original
order; distinct values with equal renderings (the number 1 and the string
"1") are conflated and only the first survives. -/
theorem c10_unique_dedups_by_string_rendering :
    (∀ xs : List Value, query.funcUnique (.arr xs) = .ok (.arr (uniqueSpec [] xs))) ∧
    query.funcUnique (.arr [.float ⟨1, 1⟩, .str "1", .float ⟨2, 1⟩]) =
      .ok (.arr [.float ⟨1, 1⟩, .float ⟨2, 1⟩]) ∧
    Value.float ⟨1, 1⟩ ≠ Value.str "1" := by
  refine ⟨fun xs => ?_, rfl, fun h => Value.noConfusion h⟩
  simp only [query.funcUnique]
  rw [funcUniqueLoop_eq_spec xs [] [] (fun s => rfl)]

/-- C2: evaluating the identity query "." on any value succeeds and returns
exactly that value, unchanged. -/
theorem c2_identity_law (v : Value) : query.Execute "." v = .ok v := rfl

/-- C3 counterexample: on the input {"age": 1} itself (an object, as the
claim states) the pipeline ".[] | select(.age > 100)" does not yield an
empty sequence: the engine rejects the object with "data is not an
array", because its iteration operator handles only arrays. -/
theorem c3_select_on_object_errors :
    query.Execute ".[] | select(.age > 100)" (.obj [("age", .float ⟨1, 1⟩)]) =
      .error "data is not an array" := rfl

/-- C3 (amended): against the array input [{"age":1}], the pipeline
".[] | select(.age > 100)" yields the empty array - zero outputs, never a
sequence containing null. -/
theorem c3_select_filters_to_empty :
    query.Execute ".[] | select(.age > 100)" (.arr [.obj [("age", .float ⟨1, 1⟩)]]) =
      .ok (.arr []) ∧
    Value.arr [] ≠ Value.arr [.null] := by
  refine ⟨rfl, fun h => ?_⟩
  injection h with h2
  exact List.noConfusion h2

/-- C8: a top-level array-form line is not decoded as the document root;
the decoder stores the array under the literal header key "[3]", even
though the encoder emits exactly this top-level form for array roots
(so decode does not invert encode here, contradicting the documented
keyed-form behavior and losslessness). -/
theorem c8_top_level_array_not_root :
    toon.Decode "[3]: a,b,c" = .ok (.obj [("[3]", .arr [.str "a", .str "b", .str "c"])]) ∧
    toon.Encode (.arr [.str "a", .str "b", .str "c"]) toon.DefaultOptions = .ok "[3]: a,b,c" ∧
    toon.Decode "tags[3]: a,b,c" = .ok (.obj [("tags", .arr [.str "a", .str "b", .str "c"])]) ∧
    Value.obj [("[3]", .arr [.str "a", .str "b", .str "c"])] ≠
      Value.arr [.str "a", .str "b", .str "c"] :=
  ⟨rfl, rfl, rfl, fun h => Value.noConfusion h⟩

/-- C9 counterexample: has() on a number does not fail with a type error
naming the function; it silently returns false. -/
theorem c9_has_silently_defaults :
    query.funcHas "\"a\"" (.float ⟨3, 1⟩) = .ok (.bool false) := rfl

/-- C9 (amended): most built-ins do validate their input's runtime type and
fail with an error naming the function and the type it requires — only a
minority (such as length and to_entries) also name the offending type —
while has, in, startswith, endswith and contains return false on
unsupported input types instead of erroring. -/
theorem c9_validation_split :
    query.funcStartsWith "\"a\"" (.float ⟨3, 1⟩) = .ok (.bool false) ∧
    query.funcEndsWith "\"a\"" (.int 3) = .ok (.bool false) ∧
    query.funcContains "\"a\"" (.arr []) = .ok (.bool false) ∧
    query.funcHas "\"k\"" (.str "s") = .ok (.bool false) ∧
    query.funcIn (fun qq dd => query.executeQuery 10 qq dd) "." (.str "s") = .ok (.bool false) ∧
    query.funcSort (.str "x") = .error "sort requires an array" ∧
    query.funcSplit "\",\"" (.float ⟨1, 1⟩) = .error "split requires a string" ∧
    query.funcFloor (.str "x") = .error "floor requires a number" ∧
    query.funcLength (.float ⟨1, 1⟩) = .error "length not supported for type float64" ∧
    query.funcToEntries (.int 1) = .error "to_entries requires an object, got int64" :=
  ⟨rfl, rfl, rfl, rfl, rfl, rfl, rfl, rfl, rfl, rfl⟩

/-- Closed evaluation showing the decoder's scalar parser never returns a
float for "null"; used to discharge reserved-word cases. -/
theorem goParseFloat?_null : goParseFloat? "null" = none := rfl

/-- Closed evaluation for the reserved word "true". -/
theorem goParseFloat?_true : goParseFloat? "true" = none := rfl

/-- Closed evaluation for the reserved word "false". -/
theorem goParseFloat?_false : goParseFloat? "false" = none := rfl

/-- C5 counterexample: the codec does not use one numeric representation.
Decoding "a: 42" yields an int64, decoding "b: 4.5" yields a float64, and
the query engine's literal parser yields float64 for the same text "42";
int64 42 and float64 42 are distinct values. -/
theorem c5_two_representations_counterexample :
    toon.Decode "a: 42" = .ok (.obj [("a", .int 42)]) ∧
    toon.Decode "b: 4.5" = .ok (.obj [("b", .float ⟨9, 2⟩)]) ∧
    query.parseValue "42" = .float ⟨42, 1⟩ ∧
    Value.int 42 ≠ Value.float ⟨42, 1⟩ :=
  ⟨rfl, rfl, rfl, fun h => Value.noConfusion h⟩

/-- C5 (amended): numbers carry two representations, split deterministically:
for any text that parses as a number, the decoder's scalar parser returns
int64 exactly when the value is integral (float64 otherwise), while the
query engine's literal parser always returns float64. -/
theorem c5_representation_rule (s : String) (q : Q)
    (h : goParseFloat? (goTrim s) = some q) :
    toon.parseValue s = (if qIsInt q then Value.int q.num else Value.float q) ∧
    query.parseValue s = Value.float q := by
  have hn : goTrim s ≠ "null" := by
    intro he; rw [he, goParseFloat?_null] at h; exact Option.noConfusion h
  have ht : goTrim s ≠ "true" := by
    intro he; rw [he, goParseFloat?_true] at h; exact Option.noConfusion h
  have hf : goTrim s ≠ "false" := by
    intro he; rw [he, goParseFloat?_false] at h; exact Option.noConfusion h
  constructor
  · simp only [toon.parseValue, if_neg hn, if_neg ht, if_neg hf, h]
  · simp only [query.parseValue, if_neg hn, if_neg ht, if_neg hf, h]

/-- Witness for the amended C5 rule at the concrete text "42". -/
theorem c5_representation_rule_witness :
    toon.parseValue "42" = Value.int 42 ∧ query.parseValue "42" = Value.float ⟨42, 1⟩ := by
  have h := c5_representation_rule "42" ⟨42, 1⟩ rfl
  simpa using h


/-- Helper for C6: with any fuel, a "[-2]" index on any array resolves to
position length-2 at evaluation time. -/
theorem negative_index_resolves (f : Nat) (xs : List Value) (h : 2 ≤ xs.length) :
    query.executeArrayIndex (f + 1) "[-2]" (.arr xs) =
      .ok (xs.getD (xs.length - 2) .null) := by
  simp only [query.executeArrayIndex]
  simp +decide [indexSub, goSlice, goAtoi?, parseIntChars?, allDigits, parseNatDigits,
    digitVal, List.isPrefixOf, goDropPre, goHasPre]
  rw [if_neg (by omega)]
  have h2 : ((xs.length : Int) + -2).toNat = xs.length - 2 := by omega
  rw [h2]

/-- C6: a negative index i on an array of length n resolves to position
n+i at evaluation time (shown for i = -2 over all arrays of length at
least 2, with any fuel); in particular .[-1] on ["a","b","c"] yields "c",
and an index still out of range after resolution fails with the
index-out-of-bounds error rather than returning a value. -/
theorem c6_negative_index (f : Nat) (xs : List Value) (h : 2 ≤ xs.length) :
    query.executeArrayIndex (f + 1) "[-2]" (.arr xs) = .ok (xs.getD (xs.length - 2) .null) ∧
    query.Execute ".[-1]" (.arr [.str "a", .str "b", .str "c"]) = .ok (.str "c") ∧
    query.Execute ".[-5]" (.arr [.str "a", .str "b", .str "c"]) =
      .error "array index out of bounds: -2 (array length: 3)" :=
  ⟨negative_index_resolves f xs h, rfl, rfl⟩

/-- Witness for C6 on the concrete array ["a","b","c"]. -/
theorem c6_negative_index_witness :
    query.executeArrayIndex 1 "[-2]" (.arr [.str "a", .str "b", .str "c"]) = .ok (.str "b") := by
  have h := c6_negative_index 0 [.str "a", .str "b", .str "c"] (by decide)
  simpa using h.1

/-- Helper for C7: the alternative loop returns the first truthy value of
the alternatives' results, or falls through when every result is falsy. -/
theorem altLoop_firstTruthy (exeq : query.Exeq) (d : Value) :
    ∀ (parts : List String) (vals : List Value),
    parts.map (fun p => exeq (goTrim p) d) = vals.map Except.ok →
    query.altLoop exeq parts d = (firstTruthy vals).map Except.ok := by
  intro parts
  induction parts with
  | nil =>
    intro vals h
    have : vals = [] := by
      cases vals with
      | nil => rfl
      | cons v vs => simp at h
    subst this; rfl
  | cons p ps ih =>
    intro vals h
    cases vals with
    | nil => simp at h
    | cons v vs =>
      simp only [List.map_cons, List.cons.injEq] at h
      obtain ⟨h1, h2⟩ := h
      simp only [query.altLoop, h1, firstTruthy, List.find?]
      cases ht : query.isTruthy v
      · simpa using ih vs h2
      · rfl

/-- Helper for C7: when every alternative evaluates without error, the //
operator returns the first truthy value, and the final alternative's
value (null included) when all are falsy. -/
theorem alternative_spec (exeq : query.Exeq) (q : String) (d : Value) (vals : List Value)
    (h : (query.splitByString q "//").map (fun p => exeq (goTrim p) d) = vals.map Except.ok) :
    query.executeAlternative exeq q d =
      .ok ((firstTruthy vals).getD (vals.getLast?.getD .null)) := by
  simp only [query.executeAlternative]
  rw [altLoop_firstTruthy exeq d _ vals h]
  cases hft : firstTruthy vals with
  | some v => rfl
  | none =>
    show _ = Except.ok (vals.getLast?.getD .null)
    cases hp : (query.splitByString q "//") with
    | nil =>
      rw [hp] at h
      have : vals = [] := by
        cases vals with
        | nil => rfl
        | cons v vs => simp at h
      subst this; rfl
    | cons p ps =>
      have hlast := congrArg List.getLast? h
      rw [List.getLast?_map, List.getLast?_map, hp] at hlast
      cases hvl : vals.getLast? with
      | none =>
        rw [hvl] at hlast
        cases hpl : (p :: ps).getLast? with
        | none => simp at hpl
        | some last => rw [hpl] at hlast; simp at hlast
      | some lv =>
        rw [hvl] at hlast
        cases hpl : (p :: ps).getLast? with
        | none => simp at hpl
        | some last =>
          rw [hpl] at hlast
          simp at hlast
          simp only [hp, hpl]
          exact hlast

/-- C7: the alternative operator // evaluates its expressions left to
right and returns the first whose evaluation succeeds and whose value is
truthy; if all alternatives are falsy it returns the final one's value,
including null.  In particular "false // null // 3" evaluates to 3 and
"false // null" evaluates to null. -/
theorem c7_alternative_first_truthy :
    (∀ d, query.Execute "false // null // 3" d = .ok (.float ⟨3, 1⟩)) ∧
    (∀ d, query.Execute "false // null" d = .ok .null) ∧
    (∀ (exeq : query.Exeq) (q : String) (d : Value) (vals : List Value),
      (query.splitByString q "//").map (fun p => exeq (goTrim p) d) = vals.map Except.ok →
      query.executeAlternative exeq q d =
        .ok ((firstTruthy vals).getD (vals.getLast?.getD .null))) :=
  ⟨fun _ => rfl, fun _ => rfl, alternative_spec⟩

/-- Witness for C7's general conjunct at the query "false // 5". -/
theorem c7_alternative_first_truthy_witness :
    query.executeAlternative (fun qq dd => query.executeQuery 10 qq dd) "false // 5" .null =
      .ok (.float ⟨5, 1⟩) := by
  have h := c7_alternative_first_truthy.2.2 (fun qq dd => query.executeQuery 10 qq dd)
    "false // 5" .null [.bool false, .float ⟨5, 1⟩] rfl
  simpa using h

/-- Helper for C4: the engine never terminates on the parenthesized group
"(.a|.b)" - at every stack bound it ends in the stack-exhaustion error. -/
theorem parenPipeStuckAB (f : Nat) :
    ∀ v, query.executeQuery f "(.a|.b)" v = .error "execution too deep" := by
  induction f with
  | zero => intro v; rfl
  | succ f ih =>
    intro v
    simp only [query.executeQuery]
    simp +decide [query.executePipe, query.splitPipe, query.splitDepthAux]
    cases v <;> simp [query.pipeLoop, show goTrim "(.a|.b)" = "(.a|.b)" from rfl, ih]

/-- Helper for C4: the same non-termination for the group "(.b|.c)". -/
theorem parenPipeStuckBC (f : Nat) :
    ∀ v, query.executeQuery f "(.b|.c)" v = .error "execution too deep" := by
  induction f with
  | zero => intro v; rfl
  | succ f ih =>
    intro v
    simp only [query.executeQuery]
    simp +decide [query.executePipe, query.splitPipe, query.splitDepthAux]
    cases v <;> simp [query.pipeLoop, show goTrim "(.b|.c)" = "(.b|.c)" from rfl, ih]

/-- Helper for C4: "(.a|.b)|.c" never terminates either - its first pipe
stage is the unsupported parenthesized group. -/
theorem parenChainStuck (f : Nat) :
    ∀ v, query.executeQuery f "(.a|.b)|.c" v = .error "execution too deep" := by
  induction f with
  | zero => intro v; rfl
  | succ f _ =>
    intro v
    simp only [query.executeQuery]
    simp +decide [query.executePipe, query.splitPipe, query.splitDepthAux]
    cases v <;> simp [query.pipeLoop, show goTrim "(.a|.b)" = "(.a|.b)" from rfl,
      parenPipeStuckAB f]

/-- Helper for C4: ".a|(.b|.c)" never succeeds - it errors on stage one or
hangs on the parenthesized stage two. -/
theorem rightParenPipeStuck (f : Nat) :
    ∀ v, (query.executeQuery f ".a|(.b|.c)" v).isOk = false := by
  intro v
  cases f with
  | zero => rfl
  | succ f =>
    simp only [query.executeQuery]
    simp +decide [query.executePipe, query.splitPipe, query.splitDepthAux]
    have hbc := parenPipeStuckBC f
    cases v <;>
      simp only [query.pipeLoop, show goTrim ".a" = ".a" from rfl,
        show goTrim "(.b|.c)" = "(.b|.c)" from rfl] <;>
      (cases hres : query.executeQuery f ".a" _ with
        | error e => simp only [hres]; rfl
        | ok r1 =>
          simp only [hres]
          cases r1 <;>
            (simp [query.pipeLoop, hbc, show goTrim "(.b|.c)" = "(.b|.c)" from rfl]; try rfl))

set_option maxRecDepth 4000 in
/-- C4 counterexample: pipe composition is not associative as claimed,
because the engine does not support parenthesized groups at all: on a
value where "a|b|c" succeeds, "(a|b)|c" runs the engine into unbounded
recursion (modeled as fuel exhaustion, a stack overflow in Go), so the
two evaluations differ. -/
theorem c4_paren_pipes_counterexample :
    query.Execute "(.a|.b)|.c" (.obj [("a", .obj [("b", .obj [("c", .str "x")])])]) ≠
      query.Execute ".a|.b|.c" (.obj [("a", .obj [("b", .obj [("c", .str "x")])])]) := by
  have h1 : query.Execute "(.a|.b)|.c" (.obj [("a", .obj [("b", .obj [("c", .str "x")])])]) =
      .error "execution too deep" :=
    parenChainStuck 100 _
  have h2 : query.Execute ".a|.b|.c" (.obj [("a", .obj [("b", .obj [("c", .str "x")])])]) =
      .ok (.str "x") := rfl
  intro h
  rw [h1, h2] at h
  exact Except.noConfusion h

/-- Helper for C4: with no "[]" fan-out marker in any stage, the pipe loop
is exactly left-to-right sequential composition (a monadic fold). -/
theorem pipeLoop_seq (exeq : query.Exeq) :
    ∀ (parts : List String) (prev : Option String) (r : Value),
    (∀ pp, prev = some pp → strContains pp "[]" = false) →
    (∀ p ∈ parts, strContains p "[]" = false) →
    query.pipeLoop exeq parts prev r =
      parts.foldlM (fun acc p => exeq (goTrim p) acc) r := by
  intro parts
  induction parts with
  | nil => intro prev r _ _; rfl
  | cons p ps ih =>
    intro prev r h1 h2
    have hp : strContains p "[]" = false := h2 p (List.mem_cons_self p ps)
    have hps : ∀ x ∈ ps, strContains x "[]" = false :=
      fun x hx => h2 x (List.mem_cons_of_mem p hx)
    have hstep : query.pipeLoop exeq (p :: ps) prev r =
        match exeq (goTrim p) r with
        | .error e => .error e
        | .ok r2 => query.pipeLoop exeq ps (some p) r2 := by
      cases r <;> cases prev <;>
        simp only [query.pipeLoop] <;>
        first
          | rfl
          | (rename_i pp; rw [h1 pp rfl]; simp)
    rw [hstep]
    cases hres : exeq (goTrim p) r with
    | error e =>
      simp only [List.foldlM_cons, hres]
      rfl
    | ok r2 =>
      simp only [List.foldlM_cons, hres]
      show query.pipeLoop exeq ps (some p) r2 =
        List.foldlM (fun acc p => exeq (goTrim p) acc) r2 ps
      exact ih (some p) r2 (fun pp hpp => by cases hpp; exact hp) hps

/-- Helper for C4: the engine evaluates ".a" as the specification-side
single-field lookup, for every input and sufficient fuel. -/
theorem evalDotA (f : Nat) : ∀ v, query.executeQuery (f + 2) ".a" v = fieldLookupSpec "a" v := by
  intro v
  simp only [query.executeQuery]
  simp +decide [query.executeFieldAccess, goDropPre, goHasPre, goSplit, splitAllAux,
    splitFirst, List.isPrefixOf]
  cases v <;>
    first
      | rfl
      | (rename_i fs; show query.fieldPathLoop ["a"] _ = _
         simp [query.fieldPathLoop, fieldLookupSpec]
         cases goMapGet fs "a" <;> rfl)

/-- Helper for C4, for the field ".b". -/
theorem evalDotB (f : Nat) : ∀ v, query.executeQuery (f + 2) ".b" v = fieldLookupSpec "b" v := by
  intro v
  simp only [query.executeQuery]
  simp +decide [query.executeFieldAccess, goDropPre, goHasPre, goSplit, splitAllAux,
    splitFirst, List.isPrefixOf]
  cases v <;>
    first
      | rfl
      | (rename_i fs; show query.fieldPathLoop ["b"] _ = _
         simp [query.fieldPathLoop, fieldLookupSpec]
         cases goMapGet fs "b" <;> rfl)

/-- Helper for C4, for the field ".c". -/
theorem evalDotC (f : Nat) : ∀ v, query.executeQuery (f + 2) ".c" v = fieldLookupSpec "c" v := by
  intro v
  simp only [query.executeQuery]
  simp +decide [query.executeFieldAccess, goDropPre, goHasPre, goSplit, splitAllAux,
    splitFirst, List.isPrefixOf]
  cases v <;>
    first
      | rfl
      | (rename_i fs; show query.fieldPathLoop ["c"] _ = _
         simp [query.fieldPathLoop, fieldLookupSpec]
         cases goMapGet fs "c" <;> rfl)

set_option maxRecDepth 4000 in
/-- C4 (amended): for the representative stages .a, .b, .c, the flat chain
"a|b|c" evaluates as the left-to-right composition of the three field
lookups on every input; the parenthesized forms are not supported - the
engine loops forever on "(a|b)|c" (stack exhaustion at every bound) and
never succeeds on "a|(b|c)". -/
theorem c4_pipe_chain :
    (∀ v, query.Execute ".a|.b|.c" v =
      fieldLookupSpec "a" v >>= fun r1 => fieldLookupSpec "b" r1 >>= fieldLookupSpec "c") ∧
    (∀ f v, query.executeQuery f "(.a|.b)|.c" v = .error "execution too deep") ∧
    (∀ f v, (query.executeQuery f ".a|(.b|.c)" v).isOk = false) := by
  refine ⟨fun v => ?_, parenChainStuck, rightParenPipeStuck⟩
  show query.pipeLoop (fun qq dd => query.executeQuery 99 qq dd) [".a", ".b", ".c"] none v = _
  rw [pipeLoop_seq _ [".a", ".b", ".c"] none v (by intro pp h; cases h) (by decide)]
  have ha : ∀ w, query.executeQuery 99 ".a" w = fieldLookupSpec "a" w := evalDotA 97
  have hb : ∀ w, query.executeQuery 99 ".b" w = fieldLookupSpec "b" w := evalDotB 97
  have hc : ∀ w, query.executeQuery 99 ".c" w = fieldLookupSpec "c" w := evalDotC 97
  simp only [List.foldlM_cons, List.foldlM_nil, show goTrim ".a" = ".a" from rfl,
    show goTrim ".b" = ".b" from rfl, show goTrim ".c" = ".c" from rfl, ha, hb, hc, bind_pure]

end TQ

namespace TQ

theorem strExt (a b : String) (h : a.data = b.data) : a = b := by
  cases a; cases b; exact congrArg String.mk h

theorem strEta (s : String) : (⟨s.data⟩ : String) = s := by
  cases s; rfl

theorem strData_append (a b : String) : (a ++ b).data = a.data ++ b.data := by
  cases a; cases b; rfl

theorem headD_eq_head? (l : List Char) (x : Char) : l.headD x = l.head?.getD x := by
  cases l <;> rfl

theorem goTrim_stable (s : String) (h1 : s.data ≠ [])
    (h2 : goIsSpace (s.data.headD 'x') = false)
    (h3 : goIsSpace (s.data.getLastD 'x') = false) : goTrim s = s := by
  apply strExt
  show ((s.data.dropWhile goIsSpace).reverse.dropWhile goIsSpace).reverse = s.data
  obtain ⟨c, t, hct⟩ : ∃ c t, s.data = c :: t := by
    cases hd : s.data with
    | nil => exact absurd hd h1
    | cons c t => exact ⟨c, t, rfl⟩
  rw [hct]
  rw [hct] at h2 h3
  have hdw : (c :: t).dropWhile goIsSpace = c :: t := by
    rw [List.dropWhile_cons, if_neg (by simp [List.headD] at h2; simp [h2])]
  rw [hdw]
  obtain ⟨d, u, hdu⟩ : ∃ d u, (c :: t).reverse = d :: u := by
    cases hr : (c :: t).reverse with
    | nil => simpa using congrArg List.length hr
    | cons d u => exact ⟨d, u, rfl⟩
  rw [hdu]
  have hdlast : d = (c :: t).getLastD 'x' := by
    have := congrArg (fun l => List.headD l 'x') hdu
    simp only [List.headD_cons] at this
    rw [← this, headD_eq_head?, List.head?_reverse, List.getLastD_eq_getLast?]
  have hds : goIsSpace d = false := by rw [hdlast]; exact h3
  rw [List.dropWhile_cons, if_neg (by simp [hds])]
  rw [← hdu, List.reverse_reverse]

theorem goTrim_cons_space (cs : List Char) : goTrim ⟨' ' :: cs⟩ = goTrim ⟨cs⟩ := by
  apply strExt
  show ((List.dropWhile _ (' ' :: cs)).reverse.dropWhile _).reverse = _
  rw [List.dropWhile_cons, if_pos (by decide)]
  rfl

theorem charBeq_comm (a b : Char) : (a == b) = (b == a) := by
  by_cases h : a = b
  · subst h; rfl
  · simp [beq_eq_false_iff_ne.mpr h, beq_eq_false_iff_ne.mpr (Ne.symm h)]

theorem containsSub_single (l : List Char) (c : Char) : containsSub l [c] = l.contains c := by
  induction l with
  | nil => rfl
  | cons x t ih =>
    show (([c].isPrefixOf (x :: t)) || containsSub t [c]) = (x :: t).contains c
    rw [ih]
    by_cases hcx : c = x
    · subst hcx; simp [List.isPrefixOf]
    · simp [List.isPrefixOf, List.contains_cons, beq_eq_false_iff_ne.mpr hcx, hcx]

theorem contains_mid (a b : List Char) (c : Char) : (a ++ c :: b).contains c = true := by
  induction a with
  | nil => simp
  | cons x t ih => simp [List.contains_cons, ih]

theorem contains_false_of (l : List Char) (c : Char) (h : ∀ x ∈ l, x ≠ c) :
    l.contains c = false := by
  induction l with
  | nil => rfl
  | cons x t ih =>
    simp only [List.contains_cons, Bool.or_eq_false_iff]
    exact ⟨beq_eq_false_iff_ne.mpr (Ne.symm (h x (List.mem_cons_self x t))),
      ih (fun y hy => h y (List.mem_cons_of_mem x hy))⟩

theorem splitFirst_mid (a b : List Char) (c : Char) (h : ∀ x ∈ a, x ≠ c) :
    splitFirst (a ++ c :: b) [c] = some (a, b) := by
  induction a with
  | nil =>
    show splitFirst (c :: b) [c] = _
    rw [splitFirst, if_pos (by simp [List.isPrefixOf])]
    rfl
  | cons x t ih =>
    show splitFirst (x :: (t ++ c :: b)) [c] = _
    rw [splitFirst, if_neg (by
      simp only [List.isPrefixOf, Bool.and_eq_true]
      intro hh
      exact absurd (eq_of_beq hh.1).symm (h x (List.mem_cons_self x t)))]
    rw [ih (fun y hy => h y (List.mem_cons_of_mem x hy))]
    rfl

theorem splitFirst_none (l : List Char) (c : Char) (h : ∀ x ∈ l, x ≠ c) :
    splitFirst l [c] = none := by
  induction l with
  | nil => rfl
  | cons x t ih =>
    rw [splitFirst, if_neg (by
      simp only [List.isPrefixOf, Bool.and_eq_true]
      intro hh
      exact absurd (eq_of_beq hh.1).symm (h x (List.mem_cons_self x t)))]
    rw [ih (fun y hy => h y (List.mem_cons_of_mem x hy))]
    rfl

theorem digitChar_val (n : Nat) (h : n < 10) :
    digitVal (digitChar n) = n ∧ 48 ≤ (digitChar n).toNat ∧ (digitChar n).toNat ≤ 57 := by
  interval_cases n <;> exact ⟨by decide, by decide, by decide⟩

theorem parseNatDigits_append_single (ds : List Char) (c : Char) :
    parseNatDigits (ds ++ [c]) = parseNatDigits ds * 10 + digitVal c := by
  simp [parseNatDigits, List.foldl_append]

theorem natDigitsAux_spec : ∀ (f n : Nat), n < f →
    natDigitsAux f n ≠ [] ∧ allDigits (natDigitsAux f n) = true ∧
    parseNatDigits (natDigitsAux f n) = n := by
  intro f
  induction f with
  | zero => intro n h; omega
  | succ f ih =>
    intro n h
    by_cases h10 : n < 10
    · rw [natDigitsAux, if_pos h10]
      obtain ⟨hv, hlo, hhi⟩ := digitChar_val n h10
      refine ⟨by simp, ?_, ?_⟩
      · simp [allDigits, hlo, hhi]
      · simp [parseNatDigits, hv]
    · rw [natDigitsAux, if_neg h10]
      have hdiv : n / 10 < f := by
        have := Nat.div_lt_self (by omega : 0 < n) (by omega : 1 < 10)
        omega
      obtain ⟨hne, hall, hval⟩ := ih (n / 10) hdiv
      obtain ⟨hv, hlo, hhi⟩ := digitChar_val (n % 10) (Nat.mod_lt n (by omega))
      refine ⟨by simp, ?_, ?_⟩
      · simp [allDigits, List.all_append] at hall ⊢
        exact ⟨hall, hlo, hhi⟩
      · rw [parseNatDigits_append_single, hval, hv]
        omega

theorem natStr_digits (n : Nat) :
    (natStr n).data ≠ [] ∧ allDigits (natStr n).data = true ∧
    parseNatDigits (natStr n).data = n :=
  natDigitsAux_spec (n + 1) n (by omega)

theorem digit_bounds_of_allDigits (cs : List Char) (h : allDigits cs = true) :
    ∀ c ∈ cs, 48 ≤ c.toNat ∧ c.toNat ≤ 57 := by
  intro c hc
  simp only [allDigits, List.all_eq_true] at h
  have := h c hc
  simpa using this

theorem nonspace_of_digit (c : Char) (h1 : 48 ≤ c.toNat) (h2 : c.toNat ≤ 57) :
    goIsSpace c = false := by
  simp only [goIsSpace, Bool.or_eq_false_iff]
  refine ⟨⟨⟨⟨⟨⟨⟨?_, ?_⟩, ?_⟩, ?_⟩, ?_⟩, ?_⟩, ?_⟩, ?_⟩ <;>
    (simp only [decide_eq_false_iff_not]; intro he; subst he; revert h1 h2; decide)

theorem ne_of_digit_bound (c : Char) (d : Char) (h2 : c.toNat ≤ 57) (hd : 57 < d.toNat) :
    c ≠ d := by
  intro he; subst he; omega

theorem ne_of_digit_bound2 (c : Char) (d : Char) (h1 : 48 ≤ c.toNat) (hd : d.toNat < 48) :
    c ≠ d := by
  intro he; subst he; omega

theorem parseFloatBody_digits (cs : List Char) (hne : cs ≠ []) (hall : allDigits cs = true) :
    parseFloatBody? cs = some (qInt (parseNatDigits cs)) := by
  have hb := digit_bounds_of_allDigits cs hall
  have hsplit1 : splitFirst cs ['e'] = none :=
    splitFirst_none cs 'e' (fun x hx => ne_of_digit_bound x 'e' (hb x hx).2 (by decide))
  have hsplit2 : splitFirst cs ['E'] = none :=
    splitFirst_none cs 'E' (fun x hx => ne_of_digit_bound x 'E' (hb x hx).2 (by decide))
  have hsplit3 : splitFirst cs ['.'] = none :=
    splitFirst_none cs '.' (fun x hx => ne_of_digit_bound2 x '.' (hb x hx).1 (by decide))
  simp only [parseFloatBody?, splitExp, hsplit1, hsplit2, parseMantissa?, hsplit3]
  rw [if_pos (by simp [hne, hall])]

theorem goParseFloat_intStr (n : Int) : goParseFloat? (intStr n) = some (qInt n) := by
  by_cases hn : n < 0
  · have : intStr n = "-" ++ natStr n.natAbs := by simp [intStr, hn]
    rw [this]
    obtain ⟨hne, hall, hval⟩ := natStr_digits n.natAbs
    show parseFloatChars? (("-" ++ natStr n.natAbs).data) = _
    rw [strData_append]
    show parseFloatChars? ('-' :: (natStr n.natAbs).data) = _
    rw [parseFloatChars?]
    rw [if_neg (by decide), if_pos rfl]
    rw [parseFloatBody_digits _ hne hall, hval]
    show some (qNeg (qInt n.natAbs)) = some (qInt n)
    simp only [qNeg, qInt, Option.some.injEq]
    have : ((n.natAbs : Int)) = -n := by omega
    simp [this]
  · have : intStr n = natStr n.natAbs := by simp [intStr, hn]
    rw [this]
    obtain ⟨hne, hall, hval⟩ := natStr_digits n.natAbs
    obtain ⟨c, t, hct⟩ : ∃ c t, (natStr n.natAbs).data = c :: t := by
      cases hd : (natStr n.natAbs).data with
      | nil => exact absurd hd hne
      | cons c t => exact ⟨c, t, rfl⟩
    have hcb : 48 ≤ c.toNat ∧ c.toNat ≤ 57 :=
      digit_bounds_of_allDigits _ hall c (by rw [hct]; exact List.mem_cons_self c t)
    show parseFloatChars? (natStr n.natAbs).data = _
    rw [hct, parseFloatChars?]
    rw [if_neg (ne_of_digit_bound2 c '+' hcb.1 (by decide)),
      if_neg (ne_of_digit_bound2 c '-' hcb.1 (by decide))]
    rw [← hct, parseFloatBody_digits _ hne hall, hval]
    have : ((n.natAbs : Int)) = n := by omega
    simp [qInt, this]

theorem charListLt_irrefl : ∀ l : List Char, charListLt l l = false := by
  intro l
  induction l with
  | nil => rfl
  | cons c t ih =>
    show charListLt (c :: t) (c :: t) = false
    rw [charListLt]
    simp [ih]

theorem charListLt_asymm : ∀ a b : List Char, charListLt a b = true → charListLt b a = false := by
  intro a
  induction a with
  | nil =>
    intro b h
    cases b with
    | nil => exact absurd h (by decide)
    | cons d u => rfl
  | cons c t ih =>
    intro b h
    cases b with
    | nil => exact absurd h (by simp [charListLt])
    | cons d u =>
      rw [charListLt] at h ⊢
      by_cases h1 : c.toNat < d.toNat
      · rw [if_neg (by omega), if_pos h1]
      · rw [if_neg h1] at h
        by_cases h2 : d.toNat < c.toNat
        · rw [if_pos h2] at h; exact absurd h (by simp)
        · rw [if_neg h2] at h
          rw [if_neg h1, if_neg h2]
          exact ih u h

theorem strLt_irrefl (s : String) : strLt s s = false :=
  charListLt_irrefl s.data

theorem strLt_asymm (a b : String) (h : strLt a b = true) : strLt b a = false :=
  charListLt_asymm a.data b.data h

theorem strLt_ne (a b : String) (h : strLt a b = true) : a ≠ b := by
  intro he
  subst he
  rw [strLt_irrefl] at h
  exact Bool.noConfusion h

theorem goMapSet_append (m : List (String × Value)) (k : String) (v : Value)
    (h : ∀ a ∈ m, strLt a.1 k = true) : goMapSet m k v = m ++ [(k, v)] := by
  induction m with
  | nil => rfl
  | cons kv rest ih =>
    obtain ⟨k2, v2⟩ := kv
    have hk2 : strLt k2 k = true := h (k2, v2) (List.mem_cons_self _ _)
    rw [goMapSet, if_neg (Ne.symm (strLt_ne k2 k hk2)), if_neg (by simp [strLt_asymm k2 k hk2])]
    rw [ih (fun a ha => h a (List.mem_cons_of_mem _ ha))]
    rfl

theorem headD_mem (l : List Char) (x : Char) (h : l ≠ []) : l.headD x ∈ l := by
  cases l with
  | nil => exact absurd rfl h
  | cons c t => exact List.mem_cons_self c t

theorem getLastD_mem (c : Char) (t : List Char) (x : Char) :
    (c :: t).getLastD x ∈ c :: t := by
  induction t generalizing c x with
  | nil => simp [List.getLastD]
  | cons d u ih =>
    rw [List.getLastD_cons]
    exact List.mem_cons_of_mem c (ih d c)

theorem mem_contains (l : List Char) (c : Char) (h : c ∈ l) : l.contains c = true := by
  induction l with
  | nil => simp at h
  | cons x t ih =>
    rcases List.mem_cons.mp h with h1 | h2
    · subst h1; simp [List.contains_cons]
    · simp only [List.contains_cons, Bool.or_eq_true]
      exact Or.inr (ih h2)

theorem intStr_facts (n : Int) :
    (intStr n).data ≠ [] ∧
    goIsSpace ((intStr n).data.headD 'x') = false ∧
    goIsSpace ((intStr n).data.getLastD 'x') = false ∧
    (∀ c ∈ (intStr n).data, c ≠ '\n') ∧ (∀ c ∈ (intStr n).data, c ≠ ':') := by
  obtain ⟨hne, hall, _⟩ := natStr_digits n.natAbs
  have hb := digit_bounds_of_allDigits _ hall
  by_cases hn : n < 0
  · have he : intStr n = "-" ++ natStr n.natAbs := by simp [intStr, hn]
    have hdata : (intStr n).data = '-' :: (natStr n.natAbs).data := by
      rw [he, strData_append]; rfl
    rw [hdata]
    refine ⟨by simp, ?_, ?_, ?_, ?_⟩
    · show goIsSpace '-' = false
      decide
    · rw [List.getLastD_cons]
      have hm : (natStr n.natAbs).data.getLastD '-' ∈ (natStr n.natAbs).data := by
        cases hd : (natStr n.natAbs).data with
        | nil => exact absurd hd hne
        | cons c t => exact getLastD_mem c t '-'
      have hcb := hb _ hm
      exact nonspace_of_digit _ hcb.1 hcb.2
    · intro d hd
      rcases List.mem_cons.mp hd with h1 | h2
      · subst h1; decide
      · exact ne_of_digit_bound2 d '\n' (hb d h2).1 (by decide)
    · intro d hd
      rcases List.mem_cons.mp hd with h1 | h2
      · subst h1; decide
      · exact ne_of_digit_bound d ':' (hb d h2).2 (by decide)
  · have he : intStr n = natStr n.natAbs := by simp [intStr, hn]
    rw [he]
    refine ⟨hne, ?_, ?_, ?_, ?_⟩
    · have hcb := hb _ (headD_mem _ 'x' hne)
      exact nonspace_of_digit _ hcb.1 hcb.2
    · have hm : (natStr n.natAbs).data.getLastD 'x' ∈ (natStr n.natAbs).data := by
        cases hd : (natStr n.natAbs).data with
        | nil => exact absurd hd hne
        | cons c t => exact getLastD_mem c t 'x'
      have hcb := hb _ hm
      exact nonspace_of_digit _ hcb.1 hcb.2
    · intro d hd
      exact ne_of_digit_bound2 d '\n' (hb d hd).1 (by decide)
    · intro d hd
      exact ne_of_digit_bound d ':' (hb d hd).2 (by decide)

theorem ne_nil_of_isEmpty (l : List Char) (h : l.isEmpty = false) : l ≠ [] := by
  intro he; subst he; exact Bool.noConfusion h

theorem not_mem_of_contains_false (l : List Char) (c : Char) (h : l.contains c = false) :
    ∀ x ∈ l, x ≠ c := by
  intro x hx he
  subst he
  rw [mem_contains l x hx] at h
  exact Bool.noConfusion h

theorem plainScalar_str (s : String) (h : plainScalar (.str s) = true) :
    s.data ≠ [] ∧ goHasPre s " " = false ∧ goHasSuf s " " = false ∧
    strContains s "," = false ∧ strContains s ":" = false ∧
    strContains s "\n" = false ∧ s ≠ "true" ∧ s ≠ "false" ∧ s ≠ "null" ∧
    goHasPre s "-" = false ∧ toon.looksLikeNumber s = false ∧
    goIsSpace (s.data.headD 'x') = false ∧ goIsSpace (s.data.getLastD 'x') = false ∧
    (goHasPre s "\"" && goHasSuf s "\"") = false := by
  simp only [plainScalar, Bool.and_eq_true, Bool.not_eq_true', bne_iff_ne, ne_eq] at h
  obtain ⟨⟨⟨⟨⟨⟨⟨⟨⟨⟨⟨⟨⟨h1, h2⟩, h3⟩, h4⟩, h5⟩, h6⟩, h7⟩, h8⟩, h9⟩, h10⟩, h11⟩, h12⟩, h13⟩, h14⟩ := h
  exact ⟨ne_nil_of_isEmpty _ h1, h2, h3, h4, h5, h6, h7, h8, h9, h10, h11, h12, h13, h14⟩

theorem parseFloat_none_of_notNumber (s : String) (hne : s.data ≠ [])
    (h : toon.looksLikeNumber s = false) : goParseFloat? s = none := by
  cases hop : goParseFloat? s with
  | none => rfl
  | some q =>
    have hs : s ≠ "" := fun he => hne (he ▸ rfl)
    simp [toon.looksLikeNumber, hop, hs] at h

theorem parseValue_scalarEnc (v : Value) (h : plainScalar v = true) :
    toon.parseValue (scalarEnc v) = v := by
  cases v with
  | null => rfl
  | bool b => cases b <;> rfl
  | int n =>
    have hpf := goParseFloat_intStr n
    obtain ⟨f1, f2, f3, _, _⟩ := intStr_facts n
    have htrim : goTrim (intStr n) = intStr n := goTrim_stable _ f1 f2 f3
    have hnull : ¬ intStr n = "null" := fun he => by
      rw [he, goParseFloat?_null] at hpf; exact Option.noConfusion hpf
    have htrue : ¬ intStr n = "true" := fun he => by
      rw [he, goParseFloat?_true] at hpf; exact Option.noConfusion hpf
    have hfalse : ¬ intStr n = "false" := fun he => by
      rw [he, goParseFloat?_false] at hpf; exact Option.noConfusion hpf
    show toon.parseValue (intStr n) = Value.int n
    simp only [toon.parseValue, htrim, if_neg hnull, if_neg htrue, if_neg hfalse, hpf]
    simp [qIsInt, qInt]
  | float q => exact Bool.noConfusion h
  | str s =>
    obtain ⟨p1, _, _, _, _, _, p7, p8, p9, _, p11, p12, p13, p14⟩ := plainScalar_str s h
    have htrim : goTrim s = s := goTrim_stable s p1 p12 p13
    have hnone := parseFloat_none_of_notNumber s p1 p11
    show toon.parseValue s = Value.str s
    simp only [toon.parseValue, htrim, if_neg p9, if_neg p7, if_neg p8, hnone, p14]
    simp
  | arr xs => exact Bool.noConfusion h
  | obj fs => exact Bool.noConfusion h

theorem scalarEnc_facts (v : Value) (h : plainScalar v = true) :
    (scalarEnc v).data ≠ [] ∧
    goIsSpace ((scalarEnc v).data.headD 'x') = false ∧
    goIsSpace ((scalarEnc v).data.getLastD 'x') = false ∧
    (∀ c ∈ (scalarEnc v).data, c ≠ '\n') := by
  cases v with
  | null => exact ⟨by decide, by decide, by decide, by decide⟩
  | bool b => cases b <;> exact ⟨by decide, by decide, by decide, by decide⟩
  | int n =>
    obtain ⟨f1, f2, f3, f4, _⟩ := intStr_facts n
    exact ⟨f1, f2, f3, f4⟩
  | float q => exact Bool.noConfusion h
  | str s =>
    obtain ⟨p1, _, _, _, _, p6, _, _, _, _, _, p12, p13, _⟩ := plainScalar_str s h
    refine ⟨p1, p12, p13, ?_⟩
    have hc : s.data.contains '\n' = false := by
      have := p6
      rw [strContains] at this
      rw [← containsSub_single]
      exact this
    exact not_mem_of_contains_false _ _ hc
  | arr xs => exact Bool.noConfusion h
  | obj fs => exact Bool.noConfusion h

theorem encodeString_plain (s : String) (h : plainScalar (.str s) = true) :
    toon.encodeString s "," = s := by
  obtain ⟨_, p2, p3, p4, p5, p6, p7, p8, p9, p10, p11, _, _, _⟩ := plainScalar_str s h
  simp only [toon.encodeString, p2, p3, p4, p5, p6, p10, p11]
  simp [p7, p8, p9]

theorem strAppend_assoc (a b c : String) : a ++ b ++ c = a ++ (b ++ c) := by
  apply strExt
  simp [strData_append, List.append_assoc]

theorem lineOf_data (k : String) (v : Value) :
    (lineOf (k, v)).data = k.data ++ ':' :: ' ' :: (scalarEnc v).data := by
  show ((k ++ ": ") ++ scalarEnc v).data = _
  rw [strData_append, strData_append]
  simp

theorem encodeObjectLines_nil (g : Nat) (opts : toon.Options) (d : Nat) :
    toon.encodeObjectLines (g + 1) [] opts d = .ok [] := rfl

theorem encodeObjectLines_step_null (g : Nat) (k : String)
    (rest : List (String × Value)) (opts : toon.Options) (d : Nat) :
    toon.encodeObjectLines (g + 2) ((k, Value.null) :: rest) opts d =
    match toon.encodeObjectLines (g + 1) rest opts d with
    | .error e => .error e
    | .ok ls => .ok ((toon.makeIndent d opts ++ k ++ ": null") :: ls) := rfl

theorem encodeObjectLines_step_bool (g : Nat) (k : String) (b : Bool)
    (rest : List (String × Value)) (opts : toon.Options) (d : Nat) :
    toon.encodeObjectLines (g + 2) ((k, Value.bool b) :: rest) opts d =
    match toon.encodeObjectLines (g + 1) rest opts d with
    | .error e => .error e
    | .ok ls =>
      .ok ((toon.makeIndent d opts ++ k ++ ": " ++ (if b then "true" else "false")) :: ls) := rfl

theorem encodeObjectLines_step_int (g : Nat) (k : String) (n : Int)
    (rest : List (String × Value)) (opts : toon.Options) (d : Nat) :
    toon.encodeObjectLines (g + 2) ((k, Value.int n) :: rest) opts d =
    match toon.encodeObjectLines (g + 1) rest opts d with
    | .error e => .error e
    | .ok ls => .ok ((toon.makeIndent d opts ++ k ++ ": " ++ intStr n) :: ls) := rfl

theorem encodeObjectLines_step_str (g : Nat) (k : String) (t : String)
    (rest : List (String × Value)) (opts : toon.Options) (d : Nat) :
    toon.encodeObjectLines (g + 2) ((k, Value.str t) :: rest) opts d =
    match toon.encodeObjectLines (g + 1) rest opts d with
    | .error e => .error e
    | .ok ls =>
      .ok ((toon.makeIndent d opts ++ k ++ ": " ++ toon.encodeString t opts.Delimiter) :: ls) :=
  rfl

theorem encodeObjectLines_plain (fields : List (String × Value)) :
    ∀ fuel, fields.length < fuel → (∀ kv ∈ fields, plainScalar kv.2 = true) →
    toon.encodeObjectLines fuel fields toon.DefaultOptions 0 = .ok (fields.map lineOf) := by
  induction fields with
  | nil =>
    intro fuel hf _
    obtain ⟨f, rfl⟩ : ∃ f, fuel = f + 1 := ⟨fuel - 1, by omega⟩
    rfl
  | cons kv rest ih =>
    intro fuel hf hp
    obtain ⟨k, v⟩ := kv
    have hv : plainScalar v = true := hp (k, v) (List.mem_cons_self _ _)
    have hrest : ∀ kv ∈ rest, plainScalar kv.2 = true :=
      fun kv hkv => hp kv (List.mem_cons_of_mem _ hkv)
    have hfl : rest.length + 1 < fuel := by
      simpa using hf
    obtain ⟨g, rfl⟩ : ∃ g, fuel = g + 2 := ⟨fuel - 2, by omega⟩
    have hih := ih (g + 1) (by omega) hrest
    rw [List.map_cons]
    cases v with
    | null =>
      have hl : toon.makeIndent 0 toon.DefaultOptions ++ k ++ ": null" = lineOf (k, .null) := by
        apply strExt
        simp [toon.makeIndent, lineOf, scalarEnc, strData_append]
      rw [encodeObjectLines_step_null, hih, hl]
    | bool b =>
      have hl : toon.makeIndent 0 toon.DefaultOptions ++ k ++ ": " ++
          (if b then "true" else "false") = lineOf (k, .bool b) := by
        apply strExt
        cases b <;> simp [toon.makeIndent, lineOf, scalarEnc, strData_append]
      rw [encodeObjectLines_step_bool, hih, hl]
    | int n =>
      have hl : toon.makeIndent 0 toon.DefaultOptions ++ k ++ ": " ++ intStr n =
          lineOf (k, .int n) := by
        apply strExt
        simp [toon.makeIndent, lineOf, scalarEnc, strData_append]
      rw [encodeObjectLines_step_int, hih, hl]
    | float q => exact Bool.noConfusion hv
    | str t =>
      have hes : toon.encodeString t toon.DefaultOptions.Delimiter = t := by
        show toon.encodeString t "," = t
        exact encodeString_plain t hv
      have hl : toon.makeIndent 0 toon.DefaultOptions ++ k ++ ": " ++ t = lineOf (k, .str t) := by
        apply strExt
        simp [toon.makeIndent, lineOf, scalarEnc, strData_append]
      rw [encodeObjectLines_step_str, hih, hes, hl]
    | arr xs => exact Bool.noConfusion hv
    | obj fs => exact Bool.noConfusion hv

theorem encodeObject_plain (fields : List (String × Value)) (fuel : Nat)
    (hne : fields ≠ []) (hf : fields.length + 1 < fuel)
    (hp : ∀ kv ∈ fields, plainScalar kv.2 = true) :
    toon.encodeObject fuel fields toon.DefaultOptions 0 =
      .ok (joinStr "\n" (fields.map lineOf)) := by
  obtain ⟨f, rfl⟩ : ∃ f, fuel = f + 1 := ⟨fuel - 1, by omega⟩
  have hlines := encodeObjectLines_plain fields f (by omega) hp
  have hemp : fields.isEmpty = false := by
    cases fields with
    | nil => exact absurd rfl hne
    | cons a b => rfl
  simp only [toon.encodeObject, hemp, hlines, Bool.false_eq_true, if_false]

theorem fields_length_lt_size (fields : List (String × Value)) :
    fields.length < valueSizeFields fields := by
  induction fields with
  | nil => simp [valueSizeFields]
  | cons kv rest ih =>
    simp only [valueSizeFields, List.length_cons]
    omega

theorem Encode_plain (fields : List (String × Value))
    (hne : fields ≠ []) (hp : ∀ kv ∈ fields, plainScalar kv.2 = true) :
    toon.Encode (.obj fields) toon.DefaultOptions =
      .ok (joinStr "\n" (fields.map lineOf)) := by
  have hlt := fields_length_lt_size fields
  have hsz : valueSize (Value.obj fields) = 1 + valueSizeFields fields := rfl
  rw [toon.Encode]
  have hg : 3 * valueSize (Value.obj fields) + 3 =
      (3 * valueSize (Value.obj fields) + 2) + 1 := by omega
  rw [hg]
  show toon.encodeObject (3 * valueSize (Value.obj fields) + 2) fields toon.DefaultOptions 0 = _
  exact encodeObject_plain fields _ hne (by omega) hp

theorem joinStr_data_cons_cons (x y : String) (t : List String) :
    (joinStr "\n" (x :: y :: t)).data = x.data ++ '\n' :: (joinStr "\n" (y :: t)).data := by
  show (x ++ "\n" ++ joinStr "\n" (y :: t)).data = _
  rw [strData_append, strData_append]
  simp

theorem splitAllAux_join (lines : List String) :
    ∀ fuel, lines ≠ [] → (∀ l ∈ lines, ∀ c ∈ l.data, c ≠ '\n') →
    (joinStr "\n" lines).data.length < fuel →
    splitAllAux fuel (joinStr "\n" lines).data ['\n'] = lines.map String.data := by
  induction lines with
  | nil => intro fuel hne _ _; exact absurd rfl hne
  | cons x t ih =>
    intro fuel _ h hf
    obtain ⟨f, rfl⟩ : ∃ f, fuel = f + 1 := ⟨fuel - 1, by omega⟩
    cases t with
    | nil =>
      have hx : ∀ c ∈ x.data, c ≠ '\n' := h x (List.mem_cons_self _ _)
      show splitAllAux (f + 1) x.data ['\n'] = [x.data]
      rw [splitAllAux, splitFirst_none x.data '\n' hx]
    | cons y u =>
      have hx : ∀ c ∈ x.data, c ≠ '\n' := h x (List.mem_cons_self _ _)
      have hrest : ∀ l ∈ y :: u, ∀ c ∈ l.data, c ≠ '\n' :=
        fun l hl => h l (List.mem_cons_of_mem _ hl)
      have hd := joinStr_data_cons_cons x y u
      rw [hd]
      rw [splitAllAux, splitFirst_mid x.data (joinStr "\n" (y :: u)).data '\n' hx]
      show x.data :: splitAllAux f (joinStr "\n" (y :: u)).data ['\n'] =
        List.map String.data (x :: y :: u)
      rw [hd] at hf
      have hlen : (joinStr "\n" (y :: u)).data.length < f := by
        simp only [List.length_append, List.length_cons] at hf
        omega
      rw [ih f (by simp) hrest hlen]
      rfl

theorem map_mk_data (ls : List String) :
    (ls.map String.data).map (fun l => (⟨l⟩ : String)) = ls := by
  induction ls with
  | nil => rfl
  | cons x t ih => simp [ih, strEta]

theorem goSplit_join (lines : List String) (hne : lines ≠ [])
    (h : ∀ l ∈ lines, ∀ c ∈ l.data, c ≠ '\n') :
    goSplit (joinStr "\n" lines) "\n" = lines := by
  rw [goSplit]
  rw [if_neg (by decide)]
  rw [splitAllAux_join lines _ hne h (by omega)]
  exact map_mk_data lines

theorem headD_append (a b : List Char) (x : Char) (h : a ≠ []) :
    (a ++ b).headD x = a.headD x := by
  cases a with
  | nil => exact absurd rfl h
  | cons c t => rfl

theorem getLastD_default (l : List Char) (x y : Char) (h : l ≠ []) :
    l.getLastD x = l.getLastD y := by
  cases l with
  | nil => exact absurd rfl h
  | cons c t => rw [List.getLastD_cons, List.getLastD_cons]

theorem getLastD_append (a : List Char) (d : Char) (u : List Char) (x : Char) :
    (a ++ d :: u).getLastD x = (d :: u).getLastD x := by
  induction a generalizing x with
  | nil => rfl
  | cons c t ih =>
    rw [List.cons_append, List.getLastD_cons, ih c]
    rw [List.getLastD_cons, List.getLastD_cons]

theorem plainKey_facts (k : String) (h : plainKey k = true) :
    k.data ≠ [] ∧ goIsSpace (k.data.headD 'x') = false ∧
    goIsSpace (k.data.getLastD 'x') = false ∧
    (∀ c ∈ k.data, ¬c = ':' ∧ ¬c = '[' ∧ ¬c = '\n') := by
  simp only [plainKey, Bool.and_eq_true, Bool.not_eq_true', List.any_eq_false,
    Bool.or_eq_true, decide_eq_true_eq, not_or] at h
  obtain ⟨⟨⟨h1, h2⟩, h3⟩, h4⟩ := h
  exact ⟨ne_nil_of_isEmpty _ h1,
    h3, h4, fun c hc => ⟨(h2 c hc).1.1, (h2 c hc).1.2, (h2 c hc).2⟩⟩

theorem parseTOONAux_plain (fields : List (String × Value)) :
    ∀ fuel acc, fields.length < fuel →
    (∀ kv ∈ fields, plainKey kv.1 = true ∧ plainScalar kv.2 = true) →
    List.Pairwise (fun a b : String × Value => strLt a.1 b.1 = true) (acc ++ fields) →
    toon.parseTOONAux fuel (fields.map lineOf) acc = .ok (acc ++ fields) := by
  induction fields with
  | nil =>
    intro fuel acc hf _ _
    obtain ⟨f, rfl⟩ : ∃ f, fuel = f + 1 := ⟨fuel - 1, by omega⟩
    simp [toon.parseTOONAux]
  | cons kv rest ih =>
    intro fuel acc hf hkv hpw
    obtain ⟨f, rfl⟩ : ∃ f, fuel = f + 1 := ⟨fuel - 1, by omega⟩
    obtain ⟨k, v⟩ := kv
    have hk : plainKey k = true := (hkv (k, v) (List.mem_cons_self _ _)).1
    have hv : plainScalar v = true := (hkv (k, v) (List.mem_cons_self _ _)).2
    obtain ⟨hk1, hk2, hk3, hk4⟩ := plainKey_facts k hk
    obtain ⟨hs1, hs2, hs3, _⟩ := scalarEnc_facts v hv
    have hkcolon : ∀ c ∈ k.data, c ≠ ':' := fun c hc => (hk4 c hc).1
    have hkbracket : ∀ c ∈ k.data, c ≠ '[' := fun c hc => (hk4 c hc).2.1
    have hlned : (lineOf (k, v)).data ≠ [] := by
      rw [lineOf_data]
      simp
    have hhead : goIsSpace ((lineOf (k, v)).data.headD 'x') = false := by
      rw [lineOf_data, headD_append _ _ _ hk1]
      exact hk2
    have hlast : goIsSpace ((lineOf (k, v)).data.getLastD 'x') = false := by
      rw [lineOf_data, getLastD_append, List.getLastD_cons, List.getLastD_cons,
        getLastD_default _ ' ' 'x' hs1]
      exact hs3
    have htrimline : goTrim (lineOf (k, v)) = lineOf (k, v) :=
      goTrim_stable _ hlned hhead hlast
    have hlineempty : ¬(lineOf (k, v) = "") := fun he => hlned (congrArg String.data he)
    have hcont : strContains (lineOf (k, v)) ":" = true := by
      show containsSub (lineOf (k, v)).data [':'] = true
      rw [containsSub_single, lineOf_data]
      exact contains_mid _ _ _
    have hsplit : splitFirst (lineOf (k, v)).data [':'] =
        some (k.data, ' ' :: (scalarEnc v).data) := by
      rw [lineOf_data]
      exact splitFirst_mid _ _ _ hkcolon
    have hkey : goTrim ⟨k.data⟩ = k := by
      rw [strEta]
      exact goTrim_stable k hk1 hk2 hk3
    have hval : goTrim ⟨' ' :: (scalarEnc v).data⟩ = scalarEnc v := by
      rw [goTrim_cons_space, strEta]
      exact goTrim_stable _ hs1 hs2 hs3
    have hbr : goHasPre k "[" = false := by
      show List.isPrefixOf ['['] k.data = false
      cases hd : k.data with
      | nil => exact absurd hd hk1
      | cons c t =>
        have hcb : c ≠ '[' := hkbracket c (hd ▸ List.mem_cons_self c t)
        simp [List.isPrefixOf, beq_eq_false_iff_ne.mpr (Ne.symm hcb)]
    have hcontbr : strContains k "[" = false := by
      show containsSub k.data ['['] = false
      rw [containsSub_single]
      exact contains_false_of _ _ hkbracket
    have hvne : ¬(scalarEnc v = "") := fun he => hs1 (congrArg String.data he)
    have hpv : toon.parseValue (scalarEnc v) = v := parseValue_scalarEnc v hv
    have hacc : ∀ a ∈ acc, strLt a.1 k = true := by
      rw [List.pairwise_append] at hpw
      exact fun a ha => hpw.2.2 a ha (k, v) (List.mem_cons_self _ _)
    have hms : goMapSet acc k v = acc ++ [(k, v)] := goMapSet_append acc k v hacc
    have hlen : rest.length < f := by
      simp only [List.length_cons] at hf
      omega
    have hrest : ∀ kv ∈ rest, plainKey kv.1 = true ∧ plainScalar kv.2 = true :=
      fun kv hkv2 => hkv kv (List.mem_cons_of_mem _ hkv2)
    have hpw' : List.Pairwise (fun a b : String × Value => strLt a.1 b.1 = true)
        ((acc ++ [(k, v)]) ++ rest) := by
      rw [List.append_assoc]
      exact hpw
    rw [List.map_cons]
    simp only [toon.parseTOONAux, htrimline, hlineempty, hcont, hsplit, hkey, hval, hbr,
      hcontbr, hvne, hpv, hms, if_false, if_true, Bool.false_or, Bool.or_self, ne_eq,
      not_false_eq_true, ite_true, ite_false, Bool.false_eq_true]
    rw [ih f (acc ++ [(k, v)]) hlen hrest hpw', List.append_assoc]
    rfl

theorem joinStr_cons_ne (x : String) (xs : List String) (h : x.data ≠ []) :
    ¬(joinStr "\n" (x :: xs) = "") := by
  cases xs with
  | nil => exact fun he => h (congrArg String.data he)
  | cons y t =>
    intro he
    have hd : x.data ++ '\n' :: (joinStr "\n" (y :: t)).data = [] := by
      rw [← joinStr_data_cons_cons]
      exact congrArg String.data he
    simp at hd

/-- C1: the spec claims Decode is a total inverse of Encode on all values,
but the codec loses the type of every root that is not an object: encoding
null produces the document "null", which decodes to the empty object, not
to null (colon-less lines are skipped and the accumulated object is
returned). -/
theorem c1_roundtrip_counterexample :
    (toon.Encode .null toon.DefaultOptions >>= toon.Decode) = .ok (.obj []) ∧
      Value.obj [] ≠ Value.null :=
  ⟨rfl, fun h => Value.noConfusion h⟩

/-- C1 (amended): on its faithful domain the round-trip law does hold: for
any nonempty flat object whose keys are plain (nonempty, no colon, bracket
or newline, trimmed) and strictly ascending in byte order, and whose
values are plain scalars (null, bool, int within float64's exact range, or
a string the encoder does not quote), Decode inverts Encode exactly. -/
theorem c1_roundtrip_flat_plain_objects (fields : List (String × Value))
    (hne : fields ≠ [])
    (hkv : ∀ kv ∈ fields, plainKey kv.1 = true ∧ plainScalar kv.2 = true)
    (hsorted : List.Pairwise (fun a b : String × Value => strLt a.1 b.1 = true) fields) :
    (toon.Encode (.obj fields) toon.DefaultOptions >>= toon.Decode) = .ok (.obj fields) := by
  rw [Encode_plain fields hne (fun kv h => (hkv kv h).2)]
  show toon.Decode (joinStr "\n" (fields.map lineOf)) = .ok (.obj fields)
  have hnl : ∀ l ∈ fields.map lineOf, ∀ c ∈ l.data, c ≠ '\n' := by
    intro l hl
    obtain ⟨kv, hinkv, rfl⟩ := List.mem_map.mp hl
    obtain ⟨k, v⟩ := kv
    obtain ⟨_, _, _, hk4⟩ := plainKey_facts k (hkv (k, v) hinkv).1
    obtain ⟨_, _, _, hs4⟩ := scalarEnc_facts v (hkv (k, v) hinkv).2
    intro c hc
    rw [lineOf_data] at hc
    rcases List.mem_append.mp hc with h1 | h2
    · exact (hk4 c h1).2.2
    · rcases List.mem_cons.mp h2 with h3 | h4
      · subst h3; decide
      · rcases List.mem_cons.mp h4 with h5 | h6
        · subst h5; decide
        · exact hs4 c h6
  have hmne : fields.map lineOf ≠ [] := by
    cases fields with
    | nil => exact absurd rfl hne
    | cons a b => simp
  have hjne : ¬(joinStr "\n" (fields.map lineOf) = "") := by
    cases fields with
    | nil => exact absurd rfl hne
    | cons kv0 rest0 =>
      rw [List.map_cons]
      apply joinStr_cons_ne
      obtain ⟨k0, v0⟩ := kv0
      rw [lineOf_data]
      simp
  have hempty : (fields.map lineOf).isEmpty = false := by
    cases fields with
    | nil => exact absurd rfl hne
    | cons a b => rfl
  have hlenf : fields.length < (fields.map lineOf).length + 1 := by
    rw [List.length_map]
    omega
  have hpw0 : List.Pairwise (fun a b : String × Value => strLt a.1 b.1 = true)
      ([] ++ fields) := hsorted
  have hmain := parseTOONAux_plain fields ((fields.map lineOf).length + 1) [] hlenf hkv hpw0
  simp only [toon.Decode]
  rw [if_neg hjne]
  rw [goSplit_join _ hmne hnl]
  simp only [toon.parseTOON, hempty, Bool.false_eq_true, if_false]
  rw [hmain]
  rfl

theorem c1_roundtrip_flat_plain_objects_witness :
    (toon.Encode (.obj [("name", Value.str "Ada")]) toon.DefaultOptions >>= toon.Decode) =
      .ok (.obj [("name", Value.str "Ada")]) :=
  c1_roundtrip_flat_plain_objects [("name", Value.str "Ada")]
    (by simp)
    (by
      intro kv hkv
      rw [List.mem_singleton] at hkv
      subst hkv
      exact ⟨rfl, rfl⟩)
    (List.pairwise_singleton _ _)

end TQ
